import Mathlib

/-!
Verification development for the backend_professorIA repository.

The repository is a Python backend built around three engines:

* src/llm_client.py      : generate_structured, a retrying gateway to a text model;
* src/analysis_engine.py : analyze_text, turning OCR text into a structured analysis;
* src/grouping_engine.py : fallback_groups / build_groups / build_class_insights and a
                           small TTL cache.

The Python code is dynamically typed, so values flowing through the engines are
modelled by the inductive type PyVal below (Python None, bool, int, float, str,
list, dict).  Machine floats are modelled by exact rationals; container ordering
of Python dicts is modelled by association lists that preserve insertion order,
as CPython dicts do.  External effects (the HTTP call issued by the gateway and
the wall clock read by the cache) are passed in explicitly: the model of an
engine receives the generation result as a parameter and the cache together with
the current time as arguments, and returns the updated cache.  A Python
exception that the source does not catch is modelled by Option.none.
-/

/-- Model of a dynamically typed Python value.  Floats are modelled as exact
rationals. -/
inductive PyVal where
  | none : PyVal
  | bool : Bool → PyVal
  | int : Int → PyVal
  | rat : Rat → PyVal
  | str : String → PyVal
  | list : List PyVal → PyVal
  | dict : List (String × PyVal) → PyVal

/-- Lookup of a key in an insertion-ordered association list modelling a dict. -/
def lookupKey (k : String) : List (String × PyVal) → Option PyVal
  | [] => Option.none
  | (k0, v) :: rest => if k0 = k then some v else lookupKey k rest

/-- Model of dict.get(key, default). -/
def getD (kvs : List (String × PyVal)) (k : String) (d : PyVal) : PyVal :=
  (lookupKey k kvs).getD d

/-- Lookup of a key on an arbitrary value: some only when the value is a dict
holding the key. -/
def dGet (v : PyVal) (k : String) : Option PyVal :=
  match v with
  | .dict kvs => lookupKey k kvs
  | _ => Option.none

/-- Model of dict[key] = value: replaces the value in place when the key exists
(CPython keeps the original position) and appends otherwise. -/
def setKey (k : String) (v : PyVal) : List (String × PyVal) → List (String × PyVal)
  | [] => [(k, v)]
  | (k0, v0) :: rest => if k0 = k then (k0, v) :: rest else (k0, v0) :: setKey k v rest

/-- setKey lifted to a PyVal; assignment to a non-dict is never exercised by the
modelled code paths, so it is the identity there. -/
def pySetKey (d : PyVal) (k : String) (v : PyVal) : PyVal :=
  match d with
  | .dict kvs => .dict (setKey k v kvs)
  | x => x

/-- Model of Python truthiness. -/
def pyTruthy : PyVal → Bool
  | .none => false
  | .bool b => b
  | .int n => n != 0
  | .rat q => q != 0
  | .str s => s != ""
  | .list xs => !xs.isEmpty
  | .dict kvs => !kvs.isEmpty

/-- Whitespace characters recognised by str.strip and the regex class \s
(ASCII fragment). -/
def isPySpace (c : Char) : Bool :=
  c = ' ' || c = '\t' || c = '\n' || c = '\r' || c = '\x0b' || c = '\x0c'

/-- Model of str.strip(): drop whitespace from both ends. -/
def pyStrip (s : String) : String :=
  String.mk (((s.data.dropWhile isPySpace).reverse.dropWhile isPySpace).reverse)

/-- Strict parse of an optionally signed decimal digit string (the core of
Python int(str); digit-group underscores are not modelled). -/
def parseIntChars : List Char → Option Int
  | [] => Option.none
  | '+' :: rest =>
      if rest ≠ [] ∧ rest.all Char.isDigit then
        some (Int.ofNat (rest.foldl (fun a c => a * 10 + (c.toNat - 48)) 0))
      else Option.none
  | '-' :: rest =>
      if rest ≠ [] ∧ rest.all Char.isDigit then
        some (-Int.ofNat (rest.foldl (fun a c => a * 10 + (c.toNat - 48)) 0))
      else Option.none
  | cs =>
      if cs.all Char.isDigit then
        some (Int.ofNat (cs.foldl (fun a c => a * 10 + (c.toNat - 48)) 0))
      else Option.none

/-- Truncation of a rational toward zero, as Python int(float) does. -/
def ratTrunc (q : Rat) : Int := Int.tdiv q.num (q.den : Int)

/-- Model of Python int(x): succeeds on ints, bools, floats (truncating) and
integral strings; raises (none) on everything else. -/
def pyToInt : PyVal → Option Int
  | .int n => some n
  | .bool b => some (if b then 1 else 0)
  | .rat q => some (ratTrunc q)
  | .str s => parseIntChars (pyStrip s).data
  | _ => Option.none

/-- Parse of a simple signed decimal (with optional fractional part) as a
rational; exponent notation and special floats are not modelled. -/
def parseFloatChars (cs : List Char) : Option Rat :=
  let signed : Bool × List Char :=
    match cs with
    | '+' :: rest => (false, rest)
    | '-' :: rest => (true, rest)
    | rest => (false, rest)
  let intPart := signed.2.takeWhile Char.isDigit
  let rest1 := signed.2.dropWhile Char.isDigit
  let core : Option (Int × Int) :=
    match rest1 with
    | [] => if intPart = [] then Option.none else
        some ((intPart.foldl (fun a c => a * 10 + (c.toNat - 48)) 0 : Nat), 1)
    | '.' :: frac =>
        if frac.all Char.isDigit ∧ (intPart ≠ [] ∨ frac ≠ []) then
          some (((intPart.foldl (fun a c => a * 10 + (c.toNat - 48)) 0 : Nat) : Int) *
              (10 : Int) ^ frac.length +
              ((frac.foldl (fun a c => a * 10 + (c.toNat - 48)) 0 : Nat) : Int),
            (10 : Int) ^ frac.length)
        else Option.none
    | _ => Option.none
  match core with
  | some q => some (Rat.divInt (if signed.1 then -q.1 else q.1) q.2)
  | Option.none => Option.none

/-- Model of Python float(x). -/
def pyToFloat : PyVal → Option Rat
  | .int n => some (n : Rat)
  | .rat q => some q
  | .bool b => some (if b then 1 else 0)
  | .str s => parseFloatChars (pyStrip s).data
  | _ => Option.none

/-- Single quote character, used by the repr model. -/
def sqStr : String := String.singleton (Char.ofNat 39)

/-- Comma separator join. -/
def joinComma : List String → String
  | [] => ""
  | [x] => x
  | x :: rest => x ++ ", " ++ joinComma rest

mutual

/-- Model of Python repr(x).  Exact float formatting and string escaping are
simplified; the modelled code never branches on the repr of a container. -/
def pyRepr : PyVal → String
  | .none => "None"
  | .bool true => "True"
  | .bool false => "False"
  | .int n => toString n
  | .rat q => toString q
  | .str s => sqStr ++ s ++ sqStr
  | .list xs => "[" ++ joinComma (pyReprList xs) ++ "]"
  | .dict kvs => "\x7b" ++ joinComma (pyReprDict kvs) ++ "\x7d"

/-- repr of the elements of a list value. -/
def pyReprList : List PyVal → List String
  | [] => []
  | v :: rest => pyRepr v :: pyReprList rest

/-- repr of the entries of a dict value. -/
def pyReprDict : List (String × PyVal) → List String
  | [] => []
  | (k, v) :: rest => (sqStr ++ k ++ sqStr ++ ": " ++ pyRepr v) :: pyReprDict rest

end

/-- Model of Python str(x): identity on strings, repr-like elsewhere. -/
def pyStr : PyVal → String
  | .str s => s
  | v => pyRepr v

/-- Model of iterating a Python value: lists yield their elements, strings
their characters, dicts their keys; other values raise (none). -/
def pyIter : PyVal → Option (List PyVal)
  | .list xs => some xs
  | .str s => some (s.data.map (fun c => .str (String.singleton c)))
  | .dict kvs => some (kvs.map (fun p => PyVal.str p.1))
  | _ => Option.none

/-- Model of v[:n] slicing: defined on lists and strings, raises elsewhere. -/
def pySlice (v : PyVal) (n : Nat) : Option PyVal :=
  match v with
  | .str s => some (.str (String.mk (s.data.take n)))
  | .list xs => some (.list (xs.take n))
  | _ => Option.none

/-- True when the first character list occurs at the head of the second. -/
def startsWithChars : List Char → List Char → Bool
  | [], _ => true
  | _ :: _, [] => false
  | a :: as, b :: bs => a == b && startsWithChars as bs

/-- True when the first character list occurs contiguously inside the second. -/
def insideChars (needle : List Char) : List Char → Bool
  | [] => startsWithChars needle []
  | c :: rest => startsWithChars needle (c :: rest) || insideChars needle rest

/-- Model of the Python in test (key in dict, element in list, substring in
str); raises (none) on non-containers.  List membership is modelled for string
needles, the only case the source exercises. -/
def pyContains (v : PyVal) (s : String) : Option Bool :=
  match v with
  | .dict kvs => some (kvs.any (fun p => p.1 == s))
  | .list xs => some (xs.any (fun x => match x with | .str t => t == s | _ => false))
  | .str t => some (insideChars s.data t.data)
  | _ => Option.none

/-- Python round(x) with no digits argument: round half to even.  Stated on
the exact numerator and denominator so that concrete instances reduce. -/
def pyRound (q : Rat) : Int :=
  let d : Int := (q.den : Int)
  let f : Int := Int.ediv q.num d
  let r : Int := Int.emod q.num d
  if 2 * r < d then f
  else if d < 2 * r then f + 1
  else if f % 2 = 0 then f else f + 1

/-- Python round(x, 2): q * 100 and the final division by 100 are formed with
Rat.divInt, which builds the same exact rationals as the field operations. -/
def roundTo2 (q : Rat) : Rat :=
  Rat.divInt (pyRound (Rat.divInt (q.num * 100) (q.den : Int))) 100


/-! ## Model of src/llm_client.py -/

/-- Outcome of one transport call to the provider: either an exception raised
by the HTTP layer (caught by generate_structured) or the raw response text. -/
inductive CallOutcome where
  | raise : String → CallOutcome
  | text : String → CallOutcome

/-- The envelope dict returned by generate_structured (the llm_enabled field,
constant on each path, is omitted). -/
structure GenEnvelope where
  success : Bool
  data : PyVal
  raw : String
  error : Option String

/-- Trace of one generate_structured run: how many transport calls were issued
(the increments of the requests metric), the sleeps performed by the linear
backoff, in order, and the returned envelope. -/
structure GenTrace where
  calls : Nat
  sleeps : List Rat
  result : GenEnvelope

/-- The while loop of generate_structured.  The loop condition
attempt <= max_retries is modelled by the fuel argument, initially
max_retries + 1; extract models _extract_json and oracle gives the outcome of
the transport call of each attempt.  After a failed attempt the code records
the error, sleeps 0.5 * attempt (after the increment) and retries. -/
def generateAttempts (extract : String → Option PyVal) (oracle : Nat → CallOutcome) :
    Nat → Nat → Option String → GenTrace
  | 0, _, lastError =>
      ⟨0, [], ⟨false, .dict [], "", some (lastError.getD "unknown")⟩⟩
  | fuel + 1, attempt, _ =>
      match oracle attempt with
      | .text raw =>
          match extract raw with
          | some d => ⟨1, [], ⟨true, d, raw, Option.none⟩⟩
          | Option.none =>
              let t := generateAttempts extract oracle fuel (attempt + 1)
                (some "JSON not found / invalid")
              ⟨t.calls + 1, Rat.divInt (Int.ofNat (attempt + 1)) 2 :: t.sleeps, t.result⟩
      | .raise msg =>
          let t := generateAttempts extract oracle fuel (attempt + 1) (some msg)
          ⟨t.calls + 1, Rat.divInt (Int.ofNat (attempt + 1)) 2 :: t.sleeps, t.result⟩
      termination_by fuel _ _ => fuel

/-- Model of generate_structured: when no provider is configured it returns
the disabled envelope without any transport call, otherwise it runs the retry
loop with attempt counter 0 and budget max_retries. -/
def generate_structured (avail : Bool) (extract : String → Option PyVal)
    (oracle : Nat → CallOutcome) (max_retries : Nat) : GenTrace :=
  if avail then generateAttempts extract oracle (max_retries + 1) 0 Option.none
  else ⟨0, [], ⟨false, .dict [], "", some "LLM disabled (no API_GROQ or GEMINI_API_KEY)"⟩⟩

/-- True when attempt n fails: the transport raises, or the text yields no
extractable JSON object. -/
def attemptFails (extract : String → Option PyVal) (oracle : Nat → CallOutcome) (n : Nat) : Bool :=
  match oracle n with
  | .raise _ => true
  | .text raw => (extract raw).isNone

/-- The error string recorded for a failed attempt n. -/
def attemptErrorMsg (oracle : Nat → CallOutcome) (n : Nat) : String :=
  match oracle n with
  | .raise msg => msg
  | .text _ => "JSON not found / invalid"

/-! ## Model of the grouping cache (src/grouping_engine.py lines 34-51) -/

/-- One cache entry: the stored payload and the time.time() of the store.
Wall-clock instants are modelled at integer (second) granularity. -/
structure CacheEntry where
  data : PyVal
  ts : Int

/-- The module-level _CACHE dict, keyed by the hex cache key. -/
def Cache := List (String × CacheEntry)

/-- Lookup of a cache key. -/
def lookupCache (k : String) : List (String × CacheEntry) → Option CacheEntry
  | [] => Option.none
  | (k0, e) :: rest => if k0 = k then some e else lookupCache k rest

/-- Insert or overwrite a cache key, keeping its position as dict assignment
does. -/
def setCache (k : String) (e : CacheEntry) : List (String × CacheEntry) → List (String × CacheEntry)
  | [] => [(k, e)]
  | (k0, e0) :: rest => if k0 = k then (k0, e) :: rest else (k0, e0) :: setCache k e rest

/-- CACHE_TTL_SECONDS: int(float(os.getenv(GROUPING_CACHE_TTL, 120))), modelled
at its default. -/
def CACHE_TTL_SECONDS : Int := 120

/-- Model of _store_cache. -/
def store_cache (c : List (String × CacheEntry)) (now : Int) (key : String) (d : PyVal) :
    List (String × CacheEntry) :=
  setCache key ⟨d, now⟩ c

/-- Model of _get_cache: the cache is returned unchanged alongside the result
because the source never deletes an expired entry (lazy expiry). -/
def get_cache (c : List (String × CacheEntry)) (now : Int) (ttl : Int) (key : String) :
    Option PyVal × List (String × CacheEntry) :=
  match lookupCache key c with
  | Option.none => (Option.none, c)
  | some e => if ttl < now - e.ts then (Option.none, c) else (some e.data, c)

/-! ## Model of src/analysis_engine.py -/

/-- Word characters for the regex \b boundary: ASCII alphanumerics, the
underscore, and (as an approximation of the Unicode word class) every
non-ASCII character, which covers the accented letters of the patterns. -/
def isWordChar (c : Char) : Bool :=
  c.isAlphanum || c = '_' || decide (127 < c.toNat)

/-- Python str.split(): split on whitespace runs, dropping empty fields. -/
def splitWsAux (cur : List Char) : List Char → List (List Char)
  | [] => if cur = [] then [] else [cur.reverse]
  | c :: rest =>
      if isPySpace c then
        if cur = [] then splitWsAux [] rest else cur.reverse :: splitWsAux [] rest
      else splitWsAux (c :: cur) rest

/-- str.split() on a string. -/
def pySplitWs (s : String) : List String :=
  (splitWsAux [] s.data).map String.mk

/-- Base-2 integer logarithm by structural recursion on a fuel bound, so that
concrete values reduce definitionally. -/
def natLog2Aux : Nat → Nat → Nat
  | 0, _ => 0
  | fuel + 1, n => if n ≤ 1 then 0 else 1 + natLog2Aux fuel (n / 2)

/-- floor(log2 n) for n > 0. -/
def natLog2 (n : Nat) : Nat := natLog2Aux n n

/-- Model of fallback_analysis (analysis_engine.py lines 22-34).  The float
expression int(math.log2(length_factor + 1) * 12) is modelled exactly over the
reals: floor(12 * log2 n) is the base-2 logarithm of n^12. -/
def fallback_analysis (detected_text : String) (subject : String) : PyVal :=
  let words := pySplitWs detected_text
  let length_factor : Nat := min 100 (max 10 words.length)
  let error_percentage : Int := min 85 (max 15 (natLog2 ((length_factor + 1) ^ 12)))
  .dict [
    ("mainError", .str "Pending advanced analysis (LLM disabled)"),
    ("errorPercentage", .int error_percentage),
    ("concepts", .list [.str (let s40 := String.mk (subject.data.take 40)
                               if s40 = "" then "General" else s40)]),
    ("suggestions", .list [.str "Enable GEMINI_API_KEY to obtain richer insights"]),
    ("reasoning", .str "Fallback heuristic"),
    ("ai_analysis", .none)]

/-- Python splitlines (modelled for the line breaks \n, \r\n and \r). -/
def splitlinesAux (cur : List Char) : List Char → List (List Char)
  | [] => if cur = [] then [] else [cur.reverse]
  | '\r' :: '\n' :: rest => cur.reverse :: splitlinesAux [] rest
  | '\n' :: rest => cur.reverse :: splitlinesAux [] rest
  | '\r' :: rest => cur.reverse :: splitlinesAux [] rest
  | c :: rest => splitlinesAux (c :: cur) rest

/-- The anchored regex match of a numbered line: ^\s*\d+\s*[\.|\)] . -/
def matchNumbered (cs : List Char) : Bool :=
  let rest1 := cs.dropWhile isPySpace
  let digits := rest1.takeWhile Char.isDigit
  let rest2 := (rest1.dropWhile Char.isDigit).dropWhile isPySpace
  if digits = [] then false
  else
    match rest2 with
    | c :: _ => c = '.' || c = '|' || c = ')'
    | [] => false

/-- Case folding for the question-word patterns (ASCII plus the accented
letters appearing in them). -/
def lowerPy (c : Char) : Char :=
  if c = 'Ã' then 'ã' else if c = 'Õ' then 'õ' else c.toLower

/-- The alternatives of \b(?:question|questão|questoes|questões|q)\b in
regex order. -/
def qPatterns : List (List Char) :=
  ["question", "questão", "questoes", "questões", "q"].map String.data

/-- Match one pattern case-insensitively at the head of the input and require
a word boundary after it; returns the remainder on success. -/
def matchWordAt : List Char → List Char → Option (List Char)
  | [], rest =>
      (match rest with
       | [] => some []
       | c :: _ => if isWordChar c then Option.none else some rest)
  | _ :: _, [] => Option.none
  | w :: ws, c :: rest => if lowerPy c = w then matchWordAt ws rest else Option.none

/-- First pattern of the alternation that matches at this position (regex
alternation with backtracking tries them left to right). -/
def firstWordMatch (pats : List (List Char)) (cs : List Char) : Option (List Char) :=
  match pats with
  | [] => Option.none
  | p :: rest =>
      match matchWordAt p cs with
      | some r => some r
      | Option.none => firstWordMatch rest cs

/-- Counting scan of re.findall for the question words; prevWord tracks
whether the previous character was a word character (the leading \b). The
fuel, initially the length of the input, bounds the scan, which consumes at
least one character per step. -/
def countQAux (fuel : Nat) (cs : List Char) (prevWord : Bool) : Nat :=
  match fuel, cs with
  | 0, _ => 0
  | _, [] => 0
  | fuel + 1, c :: rest =>
      if prevWord then countQAux fuel rest (isWordChar c)
      else
        match firstWordMatch qPatterns (c :: rest) with
        | some rest2 => 1 + countQAux fuel rest2 true
        | Option.none => countQAux fuel rest (isWordChar c)

/-- len(re.findall(question words, text, re.I)). -/
def countQWords (s : String) : Nat := countQAux s.data.length s.data false

/-- Counting scan of re.findall for \b\d+\) . -/
def countParenAux (fuel : Nat) (cs : List Char) (prevWord : Bool) : Nat :=
  match fuel, cs with
  | 0, _ => 0
  | _, [] => 0
  | fuel + 1, c :: rest =>
      if !prevWord && c.isDigit then
        match (c :: rest).dropWhile Char.isDigit with
        | ')' :: rest2 => 1 + countParenAux fuel rest2 false
        | _ => countParenAux fuel rest (isWordChar c)
      else countParenAux fuel rest (isWordChar c)

/-- len(re.findall(r"\b\d+\)", text)). -/
def countParenNums (s : String) : Nat := countParenAux s.data.length s.data false

/-- text.count(c). -/
def countChar (s : String) (c : Char) : Nat := s.data.filter (fun x => x = c) |>.length

/-- Length of the prefix of a whitespace run up to and including its last
newline, if any; this is how far the greedy \n\s*\n match extends. -/
def lastNlLen (ws : List Char) : Option Nat :=
  match ws with
  | [] => Option.none
  | c :: rest =>
      match lastNlLen rest with
      | some n => some (n + 1)
      | Option.none => if c = '\n' then some 1 else Option.none

/-- Splitting scan of re.split(r"\n\s*\n", text). -/
def splitParasAux (fuel : Nat) (cur : List Char) (cs : List Char) : List (List Char) :=
  match fuel, cs with
  | 0, _ => [cur.reverse]
  | _, [] => [cur.reverse]
  | fuel + 1, c :: rest =>
      if c = '\n' then
        let ws := rest.takeWhile isPySpace
        match lastNlLen ws with
        | some k => cur.reverse :: splitParasAux fuel [] (rest.drop k)
        | Option.none => splitParasAux fuel (c :: cur) rest
      else splitParasAux fuel (c :: cur) rest

/-- re.split(r"\n\s*\n", text) on a string. -/
def splitParas (s : String) : List (List Char) := splitParasAux s.data.length [] s.data

/-- Characters-only strip used on paragraph pieces. -/
def stripChars (cs : List Char) : List Char :=
  ((cs.dropWhile isPySpace).reverse.dropWhile isPySpace).reverse

/-- Model of _detect_total_exercises (analysis_engine.py lines 37-71). -/
def detect_total_exercises (detected_text : String) : Nat :=
  if pyStrip detected_text = "" then 1
  else
    let numbered := ((splitlinesAux [] detected_text.data).filter matchNumbered).length
    if 2 ≤ numbered then numbered
    else
      let qmatches := countQWords detected_text
      if 2 ≤ qmatches then qmatches
      else
        let paren_nums := countParenNums detected_text
        if 2 ≤ paren_nums then paren_nums
        else
          let qm := countChar detected_text '?'
          if 2 ≤ qm then qm
          else
            let paragraphs := (splitParas detected_text).filter
              (fun p => 30 < (stripChars p).length)
            if 2 ≤ paragraphs.length then paragraphs.length
            else 1

/-- Result of one generate_structured call as the engines consume it: only the
success flag and the extracted data are read. -/
structure GenResult where
  success : Bool
  data : PyVal

/-- The sanitization of errorPercentage in analyze_text (lines 93-98):
data.get(errorPercentage, 50), int() with 50 on failure, then clamping into
[0, 100]. -/
def sanitizeErrorPct (kvs : List (String × PyVal)) : Int :=
  let v := getD kvs "errorPercentage" (.int 50)
  let n := match pyToInt v with
    | some m => m
    | Option.none => 50
  max 0 (min 100 n)

/-- The score dict built in analyze_text lines 136-142.  The float expression
(100 - error_pct) / 100.0 * total_ex is the exact rational
(100 - error_pct) * total_ex / 100, formed with Rat.divInt. -/
def scoreOf (error_pct : Int) (total_ex : Nat) : PyVal :=
  let correct : Int :=
    max 0 (min (total_ex : Int) (pyRound (Rat.divInt ((100 - error_pct) * (total_ex : Int)) 100)))
  .dict [
    ("correct", .int correct),
    ("total", .int (total_ex : Int)),
    ("label", .str (toString correct ++ "/" ++ (toString (total_ex : Int))))]

/-- The fixed terminal result for an empty or whitespace-only submission
(analyze_text lines 74-81). -/
def emptySubmissionResult : PyVal :=
  .dict [
    ("mainError", .str "Empty or unreadable submission"),
    ("errorPercentage", .int 100),
    ("concepts", .list []),
    ("suggestions", .list [.str "Send a clearer image", .str "Check lighting and focus"]),
    ("reasoning", .str "No text recognized")]

/-- The micro_sent try block of analyze_text (lines 147-157).  The value is
data.get(generatedMicroExercise) or ai_structured.get(...); when ai_structured
is None the attribute access raises and the except leaves micro_sent None.
Then, for a non-empty list, the first element yields sentence-or-prompt for a
dict and the element itself for a string. -/
def microSentOf (kvs : List (String × PyVal)) (ai_structured : Option (List (String × PyVal))) :
    PyVal :=
  let gen_ex : Option PyVal :=
    let v := getD kvs "generatedMicroExercise" .none
    if pyTruthy v then some v
    else
      match ai_structured with
      | some kvs2 => some (getD kvs2 "generatedMicroExercise" .none)
      | Option.none => Option.none
  match gen_ex with
  | Option.none => .none
  | some ge =>
      match ge with
      | .list (first :: _) =>
          let m1 : PyVal :=
            match first with
            | .dict fk =>
                let s := getD fk "sentence" .none
                if pyTruthy s then s else getD fk "prompt" .none
            | _ => .none
          if pyTruthy m1 then m1
          else
            match first with
            | .str t => .str t
            | _ => m1
      | _ => .none

/-- The guidance extraction of analyze_text (lines 160-167): the first
sanitized suggestion, else the first line of the reasoning, truncated. -/
def guidanceOf (suggestions : List String) (reasoning : String) : Option String :=
  match suggestions with
  | g :: _ => some g
  | [] =>
      if reasoning ≠ "" then
        some (String.mk (((reasoning.data.splitOn '\n').headD reasoning.data).take 150))
      else Option.none

/-- Python X or DEFAULT for the guidance strings inside the feedback
templates. -/
def orDefault (g : Option String) (d : String) : String :=
  match g with
  | some s => if s = "" then d else s
  | Option.none => d

/-- The student feedback template of analyze_text lines 169-178; {...} braces
of the literal placeholder are kept verbatim. -/
def studentFeedbackOf (main_error : String) (guidance : Option String) (micro_sent : PyVal) :
    String :=
  if pyTruthy micro_sent then
    "Hi \x7bstudent_name\x7d! I reviewed your work and noticed you struggled with: \"" ++
      main_error ++ "\". Here" ++ sqStr ++ "s a short tip: " ++
      orDefault guidance "follow the steps above" ++ ". Try this short practice: " ++
      pyStr micro_sent
  else
    "Hi \x7bstudent_name\x7d! I reviewed your work and noticed you struggled with: \"" ++
      main_error ++ "\". Here" ++ sqStr ++ "s a short tip: " ++
      orDefault guidance "review the related concept" ++
      ". Keep practicing and try similar exercises to improve."

/-- The successful-generation tail of analyze_text (lines 90-191), for the
extracted primary data dict kvs and the legacy generation result.  A none
return models an uncaught exception (iterating a non-iterable concepts or
suggestions value). -/
def analyzeSuccess (kvs : List (String × PyVal)) (legacy : GenResult)
    (detected_text : String) : Option PyVal := do
  let main_error := String.mk ((pyStr (getD kvs "mainError" (.str "Unspecified"))).data.take 200)
  let error_pct := sanitizeErrorPct kvs
  let conceptsElems ← pyIter (getD kvs "concepts" (.list []))
  let concepts := (conceptsElems.map (fun c => String.mk ((pyStr c).data.take 80))).take 8
  let suggestionsElems ← pyIter (getD kvs "suggestions" (.list []))
  let suggestions := (suggestionsElems.map (fun s => String.mk ((pyStr s).data.take 120))).take 8
  let reasoning := String.mk ((pyStr (getD kvs "reasoning" (.str ""))).data.take 500)
  let ai_structured : Option (List (String × PyVal)) :=
    if legacy.success then
      match legacy.data with
      | .dict kvs2 => some kvs2
      | _ => Option.none
    else Option.none
  let micro_sent := microSentOf kvs ai_structured
  let guidance := guidanceOf suggestions reasoning
  let total_ex := detect_total_exercises detected_text
  pure (.dict [
    ("mainError", .str main_error),
    ("errorPercentage", .int error_pct),
    ("concepts", .list (concepts.map .str)),
    ("suggestions", .list (suggestions.map .str)),
    ("reasoning", .str reasoning),
    ("ai_analysis", .dict kvs),
    ("ai_structured", match ai_structured with
      | some kvs2 => .dict kvs2
      | Option.none => .none),
    ("score", scoreOf error_pct total_ex),
    ("studentFeedback", .str (studentFeedbackOf main_error guidance micro_sent))])

/-- Model of analyze_text (analysis_engine.py lines 73-191).  avail is
llm_available(); primary and legacy are the outcomes of the two
generate_structured calls.  The second component counts how many
generate_structured calls were issued (each increments the gateway request
counter).  none models an uncaught exception. -/
def analyze_text (avail : Bool) (primary legacy : GenResult)
    (detected_text subject : String) : Option (PyVal × Nat) :=
  if pyStrip detected_text = "" then some (emptySubmissionResult, 0)
  else if avail = false then some (fallback_analysis detected_text subject, 0)
  else if primary.success = false then some (fallback_analysis detected_text subject, 1)
  else
    match primary.data with
    | .dict kvs => (analyzeSuccess kvs legacy detected_text).map (fun r => (r, 2))
    | _ => Option.none

/-! ## Model of src/grouping_engine.py -/

/-- The data sub-dict of one stored analysis record, with the fields the
grouping engine reads.  Stored records are produced by analyze_text, so
mainError is a string, errorPercentage an int and concepts a string list. -/
structure AnalysisData where
  mainError : String
  errorPercentage : Int
  concepts : List String
deriving DecidableEq

/-- One analysis record as passed to the grouping engine. -/
structure AnalysisRecord where
  id : String
  studentName : String
  timestamp : String
  subject : String
  data : AnalysisData
deriving DecidableEq

/-- Lexicographic code-point comparison of character lists, matching the
Python string comparison used on timestamps. -/
def charListLt : List Char → List Char → Bool
  | [], [] => false
  | [], _ :: _ => true
  | _ :: _, [] => false
  | a :: as, b :: bs => if a < b then true else if b < a then false else charListLt as bs

/-- Python a < b on strings. -/
def strLt (a b : String) : Bool := charListLt a.data b.data

/-- One step of the _group_analyses_by_student loop over the students dict. -/
def lookupRec (k : String) : List (String × AnalysisRecord) → Option AnalysisRecord
  | [] => Option.none
  | (k0, v) :: rest => if k0 = k then some v else lookupRec k rest

/-- In-place update of the students dict at an existing key. -/
def updRec (k : String) (v : AnalysisRecord) :
    List (String × AnalysisRecord) → List (String × AnalysisRecord)
  | [] => []
  | (k0, v0) :: rest => if k0 = k then (k0, v) :: rest else (k0, v0) :: updRec k v rest

/-- The body of the _group_analyses_by_student loop: first record under a name
is kept, a later one replaces it only when its timestamp string compares
strictly greater. -/
def byStudentStep (students : List (String × AnalysisRecord)) (a : AnalysisRecord) :
    List (String × AnalysisRecord) :=
  match lookupRec a.studentName students with
  | Option.none => students ++ [(a.studentName, a)]
  | some cur => if strLt cur.timestamp a.timestamp then updRec a.studentName a students else students

/-- Model of _group_analyses_by_student (grouping_engine.py lines 99-112). -/
def group_analyses_by_student (analyses : List AnalysisRecord) :
    List (String × AnalysisRecord) :=
  analyses.foldl byStudentStep []

/-- list(students.values()) in dict insertion order. -/
def dedupValues (analyses : List AnalysisRecord) : List AnalysisRecord :=
  (group_analyses_by_student analyses).map (fun p => p.2)

/-- The three fixed buckets of fallback_groups. -/
structure Buckets where
  high : List AnalysisRecord
  medium : List AnalysisRecord
  low : List AnalysisRecord

/-- One step of the bucketing loop of fallback_groups (lines 60-67). -/
def bucketStep (b : Buckets) (a : AnalysisRecord) : Buckets :=
  let pct := a.data.errorPercentage
  if pct < 30 then { b with high := b.high ++ [a] }
  else if pct < 60 then { b with medium := b.medium ++ [a] }
  else { b with low := b.low ++ [a] }

/-- The buckets after the loop. -/
def bucketsOf (l : List AnalysisRecord) : Buckets :=
  l.foldl bucketStep ⟨[], [], []⟩

/-- The level string a record lands in. -/
def tierOf (pct : Int) : String :=
  if pct < 30 then "high" else if pct < 60 then "medium" else "low"

/-- First-occurrence deduplication of strings; models the value set
list({...}) built for commonErrors (CPython orders a set by hashing, which
the claims never depend on). -/
def dedupStrAux (seen : List String) : List String → List String
  | [] => []
  | x :: rest => if x ∈ seen then dedupStrAux seen rest else x :: dedupStrAux (x :: seen) rest

/-- Distinct mainError values of a bucket. -/
def distinctMainErrors (items : List AnalysisRecord) : List String :=
  dedupStrAux [] (items.map (fun a => a.data.mainError))

/-- The member dict emitted for one record of a heuristic bucket. -/
def memberDict (a : AnalysisRecord) : PyVal :=
  .dict [
    ("analysisId", .str a.id),
    ("studentName", .str a.studentName),
    ("rationale", .str "heuristic")]

/-- The group dict emitted for one non-empty heuristic bucket
(fallback_groups lines 77-96). -/
def groupDict (slug name color level : String) (items : List AnalysisRecord) : PyVal :=
  .dict [
    ("id", .str slug),
    ("name", .str name),
    ("level", .str level),
    ("color", .str color),
    ("description", .str "Heuristic grouping (LLM disabled)"),
    ("criteria", .str ("errorPercentage bucket " ++ level)),
    ("commonErrors", .list (((distinctMainErrors items).take 5).map .str)),
    ("suggestions", .list [.str "Enable GEMINI_API_KEY for richer grouping"]),
    ("students", .list (items.map memberDict))]

/-- Model of fallback_groups (grouping_engine.py lines 53-97): deduplicate by
student, bucket by error percentage, emit the non-empty buckets in the fixed
high, medium, low order. -/
def fallback_groups (analyses : List AnalysisRecord) : PyVal :=
  let uniq := dedupValues analyses
  let b := bucketsOf uniq
  let groups :=
    (if b.high.isEmpty then [] else
      [groupDict "advanced" "Advanced Group" "bg-green-50 border-green-200" "high" b.high]) ++
    (if b.medium.isEmpty then [] else
      [groupDict "intermediate" "Intermediate Group" "bg-yellow-50 border-yellow-200" "medium"
        b.medium]) ++
    (if b.low.isEmpty then [] else
      [groupDict "needs-support" "Support Group" "bg-red-50 border-red-200" "low" b.low])
  .dict [("groups", .list groups), ("llm", .bool false), ("cached", .bool false)]

/-- The cache key basis of _cache_key (lines 37-40); the sha256 hex digest is
modelled by the basis string itself, an injective stand-in for the digest. -/
def cache_key (analyses : List AnalysisRecord) : String :=
  String.intercalate ";" (analyses.map (fun a =>
    a.id ++ "|" ++ a.data.mainError ++ "|" ++ toString a.data.errorPercentage))

/-- The non-forced cache probe shared by build_groups and
build_class_insights (grouping_engine.py lines 123-127 and 196-200): a stored
payload is used only when present, fresh and truthy. -/
def cache_hit (cache : List (String × CacheEntry)) (now : Int) (key : String) (force : Bool) :
    Option PyVal :=
  if force then Option.none
  else
    match (get_cache cache now CACHE_TTL_SECONDS key).1 with
    | some d => if pyTruthy d then some d else Option.none
    | Option.none => Option.none

/-- The normalization of one member object of a model-produced group
(build_groups lines 161-168); a non-dict member raises. -/
def normStudent (s : PyVal) : Option PyVal :=
  match s with
  | .dict sk =>
      some (.dict [
        ("analysisId", .str (pyStr (getD sk "id" (.str "")))),
        ("studentName", .str (pyStr (getD sk "studentName" (.str "Unknown Student")))),
        ("rationale", .str (String.mk ((pyStr (getD sk "rationale" (.str ""))).data.take 160)))])
  | _ => Option.none

/-- The normalization of one model-produced group (build_groups lines
152-169); a non-dict group, a non-sliceable color or students value, or a
non-iterable commonErrors or suggestions value raises. -/
def normGroup (g : PyVal) : Option PyVal :=
  match g with
  | .dict gk => do
      let colorv ← pySlice (getD gk "color" (.str "bg-gray-50 border-gray-200")) 80
      let ceElems ← pyIter (getD gk "commonErrors" (.list []))
      let commonErrors := (ceElems.map (fun e => String.mk ((pyStr e).data.take 120))).take 10
      let sgElems ← pyIter (getD gk "suggestions" (.list []))
      let suggestions := (sgElems.map (fun s => String.mk ((pyStr s).data.take 160))).take 10
      let studs ← pySlice (getD gk "students" (.list [])) 200
      let studElems ← pyIter studs
      let students ← studElems.mapM normStudent
      pure (.dict [
        ("id", .str (String.mk ((pyStr (getD gk "id" (.str "group"))).data.take 40))),
        ("name", .str (String.mk ((pyStr (getD gk "name" (.str "Group"))).data.take 80))),
        ("level", getD gk "level" (.str "medium")),
        ("color", colorv),
        ("description", .str (String.mk ((pyStr (getD gk "description" (.str ""))).data.take 300))),
        ("criteria", .str (String.mk ((pyStr (getD gk "criteria" (.str ""))).data.take 200))),
        ("commonErrors", .list (commonErrors.map .str)),
        ("suggestions", .list (suggestions.map .str)),
        ("students", .list students)])
  | _ => Option.none

/-- Model of build_groups (grouping_engine.py lines 114-172).  cache and now
model the module cache and the clock, avail is llm_available(), and gen is
the result of the generate_structured call on the built prompt.  The updated
cache is returned; none models an uncaught exception while normalizing a
model payload. -/
def build_groups (cache : List (String × CacheEntry)) (now : Int) (avail : Bool)
    (gen : GenResult) (analyses : List AnalysisRecord) (force : Bool) :
    Option (PyVal × List (String × CacheEntry)) :=
  if analyses.isEmpty then
    some (.dict [("groups", .list []), ("llm", .bool avail), ("cached", .bool false)], cache)
  else
    let uniq := dedupValues analyses
    let key := cache_key uniq
    match cache_hit cache now key force with
    | some d => some (pySetKey d "cached" (.bool true), cache)
    | Option.none =>
      if avail = false then
        let data := fallback_groups uniq
        some (data, store_cache cache now key data)
      else if gen.success = false then
        let data := fallback_groups uniq
        some (data, store_cache cache now key data)
      else
        match pyContains gen.data "groups" with
        | Option.none => Option.none
        | some hasGroups =>
          if hasGroups = false then
            let data := fallback_groups uniq
            some (data, store_cache cache now key data)
          else
            match dGet gen.data "groups" with
            | Option.none => Option.none
            | some groups =>
              match pySlice groups 10 with
              | Option.none => Option.none
              | some gs10 =>
                match pyIter gs10 with
                | Option.none => Option.none
                | some glist =>
                  match glist.mapM normGroup with
                  | Option.none => Option.none
                  | some norm_groups =>
                    let payload : PyVal :=
                      .dict [("groups", .list norm_groups), ("llm", .bool true),
                             ("cached", .bool false)]
                    some (payload, store_cache cache now key payload)

/-- isinstance(x, dict). -/
def isDictVal : PyVal → Bool
  | .dict _ => true
  | _ => false

/-- One step of the main_errors counter dict of the heuristic class summary;
data.get(mainError) or Unknown maps a falsy (empty) value to Unknown. -/
def mainErrorKey (a : AnalysisRecord) : String :=
  if a.data.mainError = "" then "Unknown" else a.data.mainError

/-- Increment of an insertion-ordered counter dict. -/
def bumpCount (k : String) : List (String × Nat) → List (String × Nat)
  | [] => [(k, 1)]
  | (k0, n) :: rest => if k0 = k then (k0, n + 1) :: rest else (k0, n) :: bumpCount k rest

/-- The main_errors counter after the aggregation loop. -/
def mainErrorCounts (analyses : List AnalysisRecord) : List (String × Nat) :=
  analyses.foldl (fun m a => bumpCount (mainErrorKey a) m) []

/-- Stable insertion of an entry into a count-descending list: placed after
every entry with a greater or equal count, as the stable
sorted(key=-count) does. -/
def insertByCountDesc (x : String × Nat) : List (String × Nat) → List (String × Nat)
  | [] => [x]
  | y :: rest => if y.2 < x.2 then x :: y :: rest else y :: insertByCountDesc x rest

/-- Stable descending sort by count, modelling sorted(items, key=-count). -/
def sortByCountDesc (l : List (String × Nat)) : List (String × Nat) :=
  l.foldl (fun acc x => insertByCountDesc x acc) []

/-- The per-record row of the detailed list (build_class_insights lines
226-231). -/
def detailEntry (a : AnalysisRecord) : PyVal :=
  .dict [
    ("studentName", .str a.studentName),
    ("analysisId", .str a.id),
    ("errorPercentage", .int a.data.errorPercentage),
    ("shortRationale", .str (String.mk (a.data.mainError.data.take 140)))]

/-- The heuristic class summary built when the gateway is unavailable
(build_class_insights lines 203-232).  The running float total over the int
error percentages is their exact integer sum, and the rounded average is
formed with Rat.divInt. -/
def heuristic_class_summary (analyses : List AnalysisRecord) (class_name : String) : PyVal :=
  let count := analyses.length
  let total : Int := (analyses.map (fun a => a.data.errorPercentage)).sum
  let avg : Rat := roundTo2 (if count = 0 then 0 else Rat.divInt total (count : Int))
  let sorted_errors := (sortByCountDesc (mainErrorCounts analyses)).take 8
  let common := sorted_errors.map (fun e => e.1)
  .dict [
    ("class_name", .str class_name),
    ("student_count", .int (count : Int)),
    ("average_error", .rat avg),
    ("commonErrors", .list (common.map .str)),
    ("suggestions", .list [.str "Review common mistakes in class; use small-group exercises"]),
    ("detailed", .list ((analyses.take 40).map detailEntry)),
    ("llm", .bool false),
    ("cached", .bool false)]

/-- The cache key of _cache_key_for_class, with the digest modelled by the
basis string. -/
def class_cache_key (analyses : List AnalysisRecord) (class_name : String) : String :=
  "class:" ++ class_name ++ ":" ++ cache_key analyses

/-- The empty-but-informative structure returned for an empty record list
(build_class_insights line 192). -/
def emptyClassInsights (class_name : String) (avail : Bool) : PyVal :=
  .dict [
    ("class_name", .str class_name),
    ("student_count", .int 0),
    ("average_error", .rat 0),
    ("commonErrors", .list []),
    ("suggestions", .list []),
    ("detailed", .list []),
    ("llm", .bool avail),
    ("cached", .bool false)]

/-- The summary stored and returned when the gateway is available but the
generation result is unusable (build_class_insights line 246, else branch).
The source guards this with a re-check of llm_available(); availability is
fixed for the lifetime of the process, so with the gateway available the
else branch is taken. -/
def failedClassInsights (class_name : String) (n : Nat) : PyVal :=
  .dict [
    ("class_name", .str class_name),
    ("student_count", .int (n : Int)),
    ("average_error", .rat 0),
    ("commonErrors", .list []),
    ("suggestions", .list []),
    ("detailed", .list []),
    ("llm", .bool true),
    ("cached", .bool false)]

/-- Model of build_class_insights (grouping_engine.py lines 188-261).  cache,
now, avail and gen are as in build_groups; none models the uncaught exception
raised by int() on an unusable student_count value of a successful payload. -/
def build_class_insights (cache : List (String × CacheEntry)) (now : Int) (avail : Bool)
    (gen : GenResult) (analyses : List AnalysisRecord) (class_name : String) (force : Bool) :
    Option (PyVal × List (String × CacheEntry)) :=
  if analyses.isEmpty then some (emptyClassInsights class_name avail, cache)
  else
    let key := class_cache_key analyses class_name
    match cache_hit cache now key force with
    | some d => some (pySetKey d "cached" (.bool true), cache)
    | Option.none =>
      if avail = false then
        let payload := heuristic_class_summary analyses class_name
        some (payload, store_cache cache now key payload)
      else if gen.success = false ∨ isDictVal gen.data = false then
        let payload := failedClassInsights class_name analyses.length
        some (payload, store_cache cache now key payload)
      else
        match gen.data with
        | .dict kvs =>
            let kvs1 := setKey "class_name" (getD kvs "class_name" (.str class_name)) kvs
            let scv := getD kvs1 "student_count" .none
            let scArg := if pyTruthy scv then scv else .int (analyses.length : Int)
            match pyToInt scArg with
            | Option.none => Option.none
            | some sc =>
                let kvs2 := setKey "student_count" (.int sc) kvs1
                let aev := getD kvs2 "average_error" .none
                let aeArg := if pyTruthy aev then aev else .rat 0
                let ae : Rat := (pyToFloat aeArg).getD 0
                let kvs3 := setKey "average_error" (.rat ae) kvs2
                let kvs4 := setKey "llm" (.bool true) kvs3
                let kvs5 := setKey "cached" (.bool false) kvs4
                let payload : PyVal := .dict kvs5
                some (payload, store_cache cache now key payload)
        | _ => Option.none

/-- A concrete record used by the grouping counterexamples. -/
def recAna1 : AnalysisRecord := ⟨"a1", "Ana", "2024-01-01", "math", ⟨"frac", 25, ["f"]⟩⟩

/-- A second record for the same student with a newer timestamp. -/
def recAna2 : AnalysisRecord := ⟨"a2", "Ana", "2024-01-02", "math", ⟨"dec", 70, ["d"]⟩⟩

/-- The groups list of a grouping payload. -/
def groupsOf (v : PyVal) : List PyVal :=
  match dGet v "groups" with
  | some (.list gs) => gs
  | _ => []

/-- The students list of a group dict. -/
def studentsOf (g : PyVal) : List PyVal :=
  match dGet g "students" with
  | some (.list ss) => ss
  | _ => []

/-! ## Theorems -/

/-- Claim C8: for every cache key, the cache read returns the stored payload
iff an entry exists and the elapsed time since its timestamp is at most the
TTL (default 120 seconds), and reports absence otherwise without deleting the
expired entry; an entry written at t=0 is a hit when read at t=119s and a
miss when read at t=121s. -/
theorem c8_cache_ttl_semantics :
    (∀ (c : List (String × CacheEntry)) (now ttl : Int) (key : String) (d : PyVal),
      (get_cache c now ttl key).1 = some d ↔
        ∃ e, lookupCache key c = some e ∧ now - e.ts ≤ ttl ∧ d = e.data) ∧
    (∀ (c : List (String × CacheEntry)) (now ttl : Int) (key : String),
      (get_cache c now ttl key).2 = c) ∧
    CACHE_TTL_SECONDS = 120 ∧
    (get_cache (store_cache [] 0 "k" (.int 1)) 119 CACHE_TTL_SECONDS "k").1 = some (.int 1) ∧
    (get_cache (store_cache [] 0 "k" (.int 1)) 121 CACHE_TTL_SECONDS "k").1 = Option.none := by
  refine ⟨?_, ?_, rfl, rfl, rfl⟩
  · intro c now ttl key d
    unfold get_cache
    cases h : lookupCache key c with
    | none =>
        simp only [h]
        constructor
        · intro he; cases he
        · rintro ⟨e, he, -, -⟩; cases he
    | some e =>
        simp only [h]
        by_cases hlt : ttl < now - e.ts
        · simp only [if_pos hlt]
          constructor
          · intro he; cases he
          · rintro ⟨e2, he2, hle, -⟩
            cases Option.some.inj he2
            omega
        · simp only [if_neg hlt]
          constructor
          · intro he; cases he; exact ⟨e, rfl, by omega, rfl⟩
          · rintro ⟨e2, he2, -, hd⟩
            cases Option.some.inj he2
            rw [hd]
  · intro c now ttl key
    unfold get_cache
    cases lookupCache key c with
    | none => rfl
    | some e => by_cases hlt : ttl < now - e.ts <;> simp [hlt]

/-- Witness for C8 at a concrete store and read. -/
theorem c8_cache_ttl_semantics_witness :
    (get_cache (store_cache [] 0 "k" (.int 1)) 119 120 "k").1 = some (.int 1) :=
  (c8_cache_ttl_semantics.1 (store_cache [] 0 "k" (.int 1)) 119 120 "k" (.int 1)).mpr
    ⟨⟨.int 1, 0⟩, rfl, by decide, rfl⟩

/-- Claim C5: for every input text that is empty or consists only of
whitespace, analyze returns the terminal result with errorPercentage 100, an
empty concepts list and the fixed suggestions, and issues no
generate_structured call (the request counter component is 0). -/
theorem c5_empty_submission (avail : Bool) (primary legacy : GenResult)
    (text subject : String) (h : pyStrip text = "") :
    analyze_text avail primary legacy text subject = some (emptySubmissionResult, 0) ∧
    dGet emptySubmissionResult "errorPercentage" = some (.int 100) ∧
    dGet emptySubmissionResult "concepts" = some (.list []) ∧
    dGet emptySubmissionResult "suggestions" =
      some (.list [.str "Send a clearer image", .str "Check lighting and focus"]) := by
  refine ⟨?_, rfl, rfl, rfl⟩
  unfold analyze_text
  rw [h]
  simp

/-- Witness for C5 on a whitespace-only submission. -/
theorem c5_empty_submission_witness :
    analyze_text true ⟨true, .dict []⟩ ⟨true, .dict []⟩ "  " "math" =
      some (emptySubmissionResult, 0) :=
  (c5_empty_submission true ⟨true, .dict []⟩ ⟨true, .dict []⟩ "  " "math" rfl).1

/-- Field extraction from a successful analyzeSuccess result: the normalized
errorPercentage, the derived score and the absence of an llm key. -/
theorem analyzeSuccess_fields (kvs : List (String × PyVal)) (legacy : GenResult)
    (text : String) (r : PyVal) (h : analyzeSuccess kvs legacy text = some r) :
    dGet r "errorPercentage" = some (.int (sanitizeErrorPct kvs)) ∧
    dGet r "score" = some (scoreOf (sanitizeErrorPct kvs) (detect_total_exercises text)) ∧
    dGet r "llm" = Option.none := by
  unfold analyzeSuccess at h
  cases hc : pyIter (getD kvs "concepts" (.list [])) with
  | none => rw [hc] at h; cases h
  | some ce =>
      rw [hc] at h
      cases hs : pyIter (getD kvs "suggestions" (.list [])) with
      | none => rw [hs] at h; cases h
      | some sg =>
          rw [hs] at h
          simp only [Option.bind_some, Option.pure_def, Option.bind_eq_bind] at h
          cases h
          refine ⟨?_, ?_, ?_⟩ <;> rfl

/-- Claim C4: for every successful primary generation call in analyze, the
normalized errorPercentage lies in [0,100]; a model value parsed by int() is
clamped into [0,100] and an unparsable value defaults to 50. -/
theorem c4_error_percentage_clamped (primary legacy : GenResult) (text subject : String)
    (kvs : List (String × PyVal)) (r : PyVal) (n : Nat)
    (hd : primary.data = .dict kvs) (hs : primary.success = true)
    (hne : ¬ pyStrip text = "")
    (h : analyze_text true primary legacy text subject = some (r, n)) :
    dGet r "errorPercentage" = some (.int (sanitizeErrorPct kvs)) ∧
    0 ≤ sanitizeErrorPct kvs ∧ sanitizeErrorPct kvs ≤ 100 ∧
    (∀ v m, lookupKey "errorPercentage" kvs = some v → pyToInt v = some m →
      sanitizeErrorPct kvs = max 0 (min 100 m)) ∧
    (∀ v, lookupKey "errorPercentage" kvs = some v → pyToInt v = Option.none →
      sanitizeErrorPct kvs = 50) := by
  have hr : analyzeSuccess kvs legacy text = some r ∧ n = 2 := by
    unfold analyze_text at h
    rw [if_neg hne, hs, hd] at h
    simp only [Bool.true_eq_false, if_false] at h
    cases ha : analyzeSuccess kvs legacy text with
    | none => rw [ha] at h; cases h
    | some r0 =>
        rw [ha] at h
        simp only [Option.map_some'] at h
        cases h
        exact ⟨rfl, rfl⟩
  have hf := analyzeSuccess_fields kvs legacy text r hr.1
  refine ⟨hf.1, ?_, ?_, ?_, ?_⟩
  · unfold sanitizeErrorPct
    cases pyToInt (getD kvs "errorPercentage" (.int 50)) <;> simp
  · unfold sanitizeErrorPct
    cases pyToInt (getD kvs "errorPercentage" (.int 50)) <;> simp
  · intro v m hv hm
    have hg : getD kvs "errorPercentage" (.int 50) = v := by unfold getD; rw [hv]; rfl
    unfold sanitizeErrorPct
    rw [hg]; simp only [hm]
  · intro v hv hm
    have hg : getD kvs "errorPercentage" (.int 50) = v := by unfold getD; rw [hv]; rfl
    unfold sanitizeErrorPct
    rw [hg]; simp only [hm]
    omega

/-- Witness for C4 on a model payload carrying errorPercentage 150. -/
theorem c4_error_percentage_clamped_witness :
    0 ≤ sanitizeErrorPct [("errorPercentage", PyVal.int 150)] ∧
    sanitizeErrorPct [("errorPercentage", PyVal.int 150)] ≤ 100 ∧
    sanitizeErrorPct [("errorPercentage", PyVal.int 150)] = 100 := by
  have hiso : (analyze_text true ⟨true, .dict [("errorPercentage", .int 150)]⟩
      ⟨false, .dict []⟩ "x" "m").isSome = true := by rfl
  match hA : analyze_text true ⟨true, .dict [("errorPercentage", .int 150)]⟩
      ⟨false, .dict []⟩ "x" "m" with
  | Option.none => rw [hA] at hiso; cases hiso
  | some (r, n) =>
      have hc := c4_error_percentage_clamped ⟨true, .dict [("errorPercentage", .int 150)]⟩
        ⟨false, .dict []⟩ "x" "m" [("errorPercentage", .int 150)] r n rfl rfl
        (by decide) hA
      exact ⟨hc.2.1, hc.2.2.1, by
        have := hc.2.2.2.1 (.int 150) 150 rfl rfl
        rw [this]; rfl⟩

/-- Claim C7: for every analysis with detected exercise total and normalized
error percentage, the derived score has correct = round((100 - pct)/100 *
total) clamped into [0, total] and label "correct/total"; in particular
total 4 with pct 25 yields correct 3 and label "3/4". -/
theorem c7_score_derivation :
    (∀ (pct : Int) (total : Nat),
      dGet (scoreOf pct total) "correct" =
        some (.int (max 0 (min (total : Int)
          (pyRound (Rat.divInt ((100 - pct) * (total : Int)) 100))))) ∧
      dGet (scoreOf pct total) "label" =
        some (.str (toString (max 0 (min (total : Int)
          (pyRound (Rat.divInt ((100 - pct) * (total : Int)) 100)))) ++ "/" ++
          toString (total : Int))) ∧
      (∀ c : Int, dGet (scoreOf pct total) "correct" = some (.int c) →
        0 ≤ c ∧ c ≤ (total : Int))) ∧
    (∀ (kvs : List (String × PyVal)) (legacy : GenResult) (text : String) (r : PyVal),
      analyzeSuccess kvs legacy text = some r →
      dGet r "score" = some (scoreOf (sanitizeErrorPct kvs) (detect_total_exercises text))) ∧
    scoreOf 25 4 = .dict [("correct", .int 3), ("total", .int 4), ("label", .str "3/4")] := by
  refine ⟨?_, ?_, rfl⟩
  · intro pct total
    refine ⟨rfl, rfl, ?_⟩
    intro c hc
    have : (PyVal.int (max 0 (min (total : Int)
        (pyRound (Rat.divInt ((100 - pct) * (total : Int)) 100))))) = .int c :=
      Option.some.inj hc
    cases this
    constructor
    · exact le_max_left 0 _
    · have h0 : (0 : Int) ≤ (total : Int) := Int.ofNat_nonneg total
      omega
  · intro kvs legacy text r h
    exact (analyzeSuccess_fields kvs legacy text r h).2.1

/-- Witness for C7 at pct 25, total 4. -/
theorem c7_score_derivation_witness :
    0 ≤ (3 : Int) ∧ (3 : Int) ≤ ((4 : Nat) : Int) :=
  (c7_score_derivation.1 25 4).2.2 3 rfl

/-- The retry loop issues at most fuel transport calls. -/
theorem generateAttempts_calls_le (extract : String → Option PyVal)
    (oracle : Nat → CallOutcome) :
    ∀ (fuel attempt : Nat) (le0 : Option String),
      (generateAttempts extract oracle fuel attempt le0).calls ≤ fuel := by
  intro fuel
  induction fuel with
  | zero => intro attempt le0; simp [generateAttempts]
  | succ f ih =>
      intro attempt le0
      unfold generateAttempts
      cases ho : oracle attempt with
      | text raw =>
          cases he : extract raw with
          | none =>
              simp only [ho, he]
              simpa using Nat.succ_le_succ (ih (attempt + 1) (some "JSON not found / invalid"))
          | some d => simp [ho, he]
      | raise msg =>
          simp only [ho]
          simpa using Nat.succ_le_succ (ih (attempt + 1) (some msg))

/-- The backoff sleeps of the retry loop are 0.5, 1.0, 1.5, ... relative to
the starting attempt index: the i-th sleep (0-based) lasts
0.5 * (attempt + i + 1) seconds. -/
theorem generateAttempts_sleeps (extract : String → Option PyVal)
    (oracle : Nat → CallOutcome) :
    ∀ (fuel attempt : Nat) (le0 : Option String) (i : Nat),
      i < (generateAttempts extract oracle fuel attempt le0).sleeps.length →
      (generateAttempts extract oracle fuel attempt le0).sleeps[i]? =
        some (Rat.divInt (Int.ofNat (attempt + i + 1)) 2) := by
  intro fuel
  induction fuel with
  | zero => intro attempt le0 i hi; simp [generateAttempts] at hi
  | succ f ih =>
      intro attempt le0 i hi
      unfold generateAttempts at hi ⊢
      have hstep : ∀ msg : String,
          i < (generateAttempts extract oracle f (attempt + 1) (some msg)).sleeps.length + 1 →
          (Rat.divInt (Int.ofNat (attempt + 1)) 2 ::
            (generateAttempts extract oracle f (attempt + 1) (some msg)).sleeps)[i]? =
          some (Rat.divInt (Int.ofNat (attempt + i + 1)) 2) := by
        intro msg hlen
        cases i with
        | zero => simp
        | succ j =>
            rw [List.getElem?_cons_succ]
            have hj : j < (generateAttempts extract oracle f (attempt + 1)
                (some msg)).sleeps.length := Nat.lt_of_succ_lt_succ hlen
            rw [show attempt + (j + 1) + 1 = attempt + 1 + j + 1 by omega]
            exact ih (attempt + 1) (some msg) j hj
      cases ho : oracle attempt with
      | text raw =>
          cases he : extract raw with
          | none =>
              simp only [ho, he, List.length_cons] at hi
              simp only [ho, he]
              exact hstep "JSON not found / invalid" hi
          | some d => simp [ho, he] at hi
      | raise msg =>
          simp only [ho, List.length_cons] at hi
          simp only [ho]
          exact hstep msg hi

/-- When every attempt in the window fails, the loop exhausts its budget:
success is false, every attempt issues a call, and the recorded error is the
message of the last attempt. -/
theorem generateAttempts_all_fail (extract : String → Option PyVal)
    (oracle : Nat → CallOutcome) :
    ∀ (fuel attempt : Nat) (le0 : Option String),
      (∀ n, attempt ≤ n → n < attempt + fuel → attemptFails extract oracle n = true) →
      (generateAttempts extract oracle fuel attempt le0).result.success = false ∧
      (generateAttempts extract oracle fuel attempt le0).calls = fuel ∧
      (0 < fuel → (generateAttempts extract oracle fuel attempt le0).result.error =
        some (attemptErrorMsg oracle (attempt + fuel - 1))) ∧
      (fuel = 0 → (generateAttempts extract oracle fuel attempt le0).result.error =
        some (le0.getD "unknown")) := by
  intro fuel
  induction fuel with
  | zero =>
      intro attempt le0 hfail
      unfold generateAttempts
      exact ⟨rfl, rfl, by omega, fun _ => rfl⟩
  | succ f ih =>
      intro attempt le0 hfail
      have hfa : attemptFails extract oracle attempt = true :=
        hfail attempt (le_refl attempt) (by omega)
      have hrest : ∀ n, attempt + 1 ≤ n → n < attempt + 1 + f →
          attemptFails extract oracle n = true := by
        intro n h1 h2; exact hfail n (by omega) (by omega)
      unfold generateAttempts
      cases ho : oracle attempt with
      | text raw =>
          cases he : extract raw with
          | none =>
              simp only [ho, he]
              have ihr := ih (attempt + 1) (some "JSON not found / invalid") hrest
              refine ⟨ihr.1, by simpa using ihr.2.1, ?_,
                fun hcon => absurd hcon (Nat.succ_ne_zero f)⟩
              intro _
              rcases Nat.eq_zero_or_pos f with hf | hf
              · subst hf
                have h0 := ihr.2.2.2 rfl
                rw [h0]
                unfold attemptErrorMsg
                rw [show attempt + (0 + 1) - 1 = attempt by omega, ho]
                rfl
              · have h1 := ihr.2.2.1 hf
                rw [show attempt + (f + 1) - 1 = attempt + 1 + f - 1 by omega]
                exact h1
          | some d =>
              exfalso
              unfold attemptFails at hfa
              simp [ho, he] at hfa
      | raise msg =>
          simp only [ho]
          have ihr := ih (attempt + 1) (some msg) hrest
          refine ⟨ihr.1, by simpa using ihr.2.1, ?_,
            fun hcon => absurd hcon (Nat.succ_ne_zero f)⟩
          intro _
          rcases Nat.eq_zero_or_pos f with hf | hf
          · subst hf
            have h0 := ihr.2.2.2 rfl
            rw [h0]
            unfold attemptErrorMsg
            rw [show attempt + (0 + 1) - 1 = attempt by omega, ho]
            rfl
          · have h1 := ihr.2.2.1 hf
            rw [show attempt + (f + 1) - 1 = attempt + 1 + f - 1 by omega]
            exact h1

/-- When the first non-failing attempt lies inside the window, the loop stops
there with a success envelope, having issued one call per attempt up to and
including it. -/
theorem generateAttempts_first_success (extract : String → Option PyVal)
    (oracle : Nat → CallOutcome) :
    ∀ (fuel attempt : Nat) (le0 : Option String) (n : Nat),
      attempt ≤ n → n < attempt + fuel →
      (∀ m, attempt ≤ m → m < n → attemptFails extract oracle m = true) →
      attemptFails extract oracle n = false →
      (generateAttempts extract oracle fuel attempt le0).calls = n - attempt + 1 ∧
      (generateAttempts extract oracle fuel attempt le0).result.success = true := by
  intro fuel
  induction fuel with
  | zero => intro attempt le0 n h1 h2; omega
  | succ f ih =>
      intro attempt le0 n h1 h2 hbefore hn
      unfold generateAttempts
      rcases Nat.eq_or_lt_of_le h1 with heq | hlt
      · subst heq
        unfold attemptFails at hn
        cases ho : oracle attempt with
        | text raw =>
            simp only [ho] at hn
            cases he : extract raw with
            | none => simp [he] at hn
            | some d =>
                simp only [ho, he]
                exact ⟨by simp, by simp⟩
        | raise msg => simp only [ho] at hn; cases hn
      · have hfa : attemptFails extract oracle attempt = true :=
          hbefore attempt (le_refl attempt) hlt
        have hrest : ∀ m, attempt + 1 ≤ m → m < n → attemptFails extract oracle m = true :=
          fun m hm1 hm2 => hbefore m (by omega) hm2
        have ihr := fun msg => ih (attempt + 1) (some msg) n (by omega) (by omega) hrest hn
        cases ho : oracle attempt with
        | text raw =>
            cases he : extract raw with
            | none =>
                simp only [ho, he]
                have hs1 := ihr "JSON not found / invalid"
                refine ⟨?_, hs1.2⟩
                simp only [hs1.1]
                omega
            | some d =>
                exfalso
                unfold attemptFails at hfa
                simp [ho, he] at hfa
        | raise msg =>
            simp only [ho]
            have hs1 := ihr msg
            refine ⟨?_, hs1.2⟩
            simp only [hs1.1]
            omega

/-- Claim C9: each generate call issues at most max_retries + 1 transport
attempts; the n-th failed attempt is followed by a 0.5 * n second sleep; a
transport success whose text yields no JSON is a recoverable failure retried
within the budget; and exhausting the budget returns a failure envelope with
the last recorded error instead of raising. -/
theorem c9_retry_budget (extract : String → Option PyVal) (oracle : Nat → CallOutcome)
    (max_retries : Nat) :
    (∀ avail : Bool,
      (generate_structured avail extract oracle max_retries).calls ≤ max_retries + 1) ∧
    (∀ i, i < (generate_structured true extract oracle max_retries).sleeps.length →
      (generate_structured true extract oracle max_retries).sleeps[i]? =
        some (Rat.divInt (Int.ofNat (i + 1)) 2)) ∧
    ((∀ n, n ≤ max_retries → attemptFails extract oracle n = true) →
      (generate_structured true extract oracle max_retries).result.success = false ∧
      (generate_structured true extract oracle max_retries).calls = max_retries + 1 ∧
      (generate_structured true extract oracle max_retries).result.error =
        some (attemptErrorMsg oracle max_retries)) ∧
    (∀ n, n ≤ max_retries →
      (∀ m, m < n → attemptFails extract oracle m = true) →
      attemptFails extract oracle n = false →
      (generate_structured true extract oracle max_retries).calls = n + 1 ∧
      (generate_structured true extract oracle max_retries).result.success = true) := by
  refine ⟨?_, ?_, ?_, ?_⟩
  · intro avail
    cases avail with
    | false => simp [generate_structured]
    | true =>
        simp only [generate_structured, if_pos]
        exact generateAttempts_calls_le extract oracle (max_retries + 1) 0 Option.none
  · intro i hi
    simp only [generate_structured, if_pos] at hi ⊢
    have := generateAttempts_sleeps extract oracle (max_retries + 1) 0 Option.none i hi
    simpa using this
  · intro hfail
    have hall : ∀ n, 0 ≤ n → n < 0 + (max_retries + 1) →
        attemptFails extract oracle n = true := by
      intro n _ hn
      exact hfail n (by omega)
    have h := generateAttempts_all_fail extract oracle (max_retries + 1) 0 Option.none hall
    refine ⟨h.1, h.2.1, ?_⟩
    have he := h.2.2.1 (Nat.succ_pos max_retries)
    simpa using he
  · intro n hn hbefore hnf
    have h := generateAttempts_first_success extract oracle (max_retries + 1) 0 Option.none n
      (Nat.zero_le n) (by omega) (fun m _ hm => hbefore m hm) hnf
    simpa using h

/-- Witness for C9: with a first attempt whose text carries no JSON and a
second that parses, the loop issues exactly two calls and succeeds. -/
theorem c9_retry_budget_witness :
    (generate_structured true
        (fun s => if s = "ok" then some (.dict []) else Option.none)
        (fun n => if n = 0 then CallOutcome.text "bad" else CallOutcome.text "ok")
        2).calls = 2 ∧
    (generate_structured true
        (fun s => if s = "ok" then some (.dict []) else Option.none)
        (fun n => if n = 0 then CallOutcome.text "bad" else CallOutcome.text "ok")
        2).result.success = true := by
  have h := (c9_retry_budget
    (fun s => if s = "ok" then some (.dict []) else Option.none)
    (fun n => if n = 0 then CallOutcome.text "bad" else CallOutcome.text "ok")
    2).2.2.2 1 (by decide)
    (by
      intro m hm
      have hm0 : m = 0 := by omega
      subst hm0
      decide)
    (by decide)
  exact ⟨h.1, h.2⟩

/-- Claim C10: in the model-backed path of build_groups each normalized member
takes its analysisId from the member object key id (stringified, empty when
absent); a payload that carries the reference under the analysisId key asked
for by the prompt therefore normalizes to an empty analysisId. -/
theorem c10_member_id_from_id_key :
    (∀ sk : List (String × PyVal),
      normStudent (.dict sk) = some (.dict [
        ("analysisId", .str (pyStr (getD sk "id" (.str "")))),
        ("studentName", .str (pyStr (getD sk "studentName" (.str "Unknown Student")))),
        ("rationale", .str (String.mk ((pyStr (getD sk "rationale" (.str ""))).data.take 160)))])) ∧
    (∀ sk : List (String × PyVal), lookupKey "id" sk = Option.none →
      ∀ r : PyVal, normStudent (.dict sk) = some r →
        dGet r "analysisId" = some (.str "")) ∧
    ((build_groups [] 0 true
        ⟨true, .dict [("groups", .list [.dict [("students", .list [.dict [
          ("analysisId", .str "a1"), ("studentName", .str "Maria")]])]])]⟩
        [⟨"a1", "Maria", "2024-01-01", "math", ⟨"frac", 25, []⟩⟩] true).map
          (fun p => dGet p.1 "groups")) =
      some (some (.list [.dict [
        ("id", .str "group"), ("name", .str "Group"), ("level", .str "medium"),
        ("color", .str "bg-gray-50 border-gray-200"), ("description", .str ""),
        ("criteria", .str ""), ("commonErrors", .list []), ("suggestions", .list []),
        ("students", .list [.dict [("analysisId", .str ""), ("studentName", .str "Maria"),
          ("rationale", .str "")]])]])) := by
  refine ⟨fun sk => rfl, ?_, rfl⟩
  intro sk hid r hr
  have ha : normStudent (.dict sk) = some (.dict [
      ("analysisId", .str (pyStr (getD sk "id" (.str "")))),
      ("studentName", .str (pyStr (getD sk "studentName" (.str "Unknown Student")))),
      ("rationale", .str (String.mk ((pyStr (getD sk "rationale" (.str ""))).data.take 160)))]) :=
    rfl
  cases Option.some.inj (ha.symm.trans hr)
  have hg : getD sk "id" (.str "") = .str "" := by
    unfold getD
    rw [hid]
    rfl
  show some (PyVal.str (pyStr (getD sk "id" (PyVal.str "")))) = some (PyVal.str "")
  rw [hg]
  rfl

/-- Witness for C10 on a member object with no id key. -/
theorem c10_member_id_from_id_key_witness :
    dGet (.dict [
      ("analysisId", PyVal.str (pyStr (getD [("studentName", PyVal.str "Maria")] "id" (.str "")))),
      ("studentName", .str (pyStr (getD [("studentName", PyVal.str "Maria")] "studentName"
        (.str "Unknown Student")))),
      ("rationale", .str (String.mk ((pyStr (getD [("studentName", PyVal.str "Maria")] "rationale"
        (.str ""))).data.take 160)))]) "analysisId" = some (.str "") :=
  c10_member_id_from_id_key.2.1 [("studentName", PyVal.str "Maria")] rfl _
    (c10_member_id_from_id_key.1 [("studentName", PyVal.str "Maria")])

/-- Counterexample to claim C1: with the gateway available and a failed
generation, build_class_insights returns the empty summary, not the heuristic
aggregate computed from the records — the heuristic aggregate carries a
detail row for the record while the returned structure has none. -/
theorem c1_counterexample :
    ((build_class_insights [] 0 true ⟨false, .dict []⟩ [recAna1] "turma" true).map
      (fun p => dGet p.1 "detailed")) = some (some (.list [])) ∧
    dGet (heuristic_class_summary [recAna1] "turma") "detailed" =
      some (.list [detailEntry recAna1]) ∧
    ((PyVal.list []) ≠ .list [detailEntry recAna1]) ∧
    ((build_class_insights [] 0 true ⟨false, .dict []⟩ [recAna1] "turma" true).map
      (fun p => dGet p.1 "commonErrors")) = some (some (.list [])) ∧
    dGet (heuristic_class_summary [recAna1] "turma") "commonErrors" =
      some (.list [.str "frac"]) := by
  refine ⟨rfl, rfl, ?_, rfl, rfl⟩
  intro h
  simp at h

/-- Claim C1 (amended): for every non-empty record list, when the gateway is
available but the generation call fails or returns a non-mapping payload,
build_class_insights returns and caches the empty summary (student_count =
record count, empty commonErrors, suggestions and detailed, llm true) rather
than raising; the heuristic aggregate is returned only when the gateway is
unavailable. -/
theorem c1_available_failure_returns_empty_summary
    (cache : List (String × CacheEntry)) (now : Int) (gen : GenResult)
    (analyses : List AnalysisRecord) (class_name : String)
    (hne : analyses ≠ [])
    (hfail : gen.success = false ∨ isDictVal gen.data = false) :
    build_class_insights cache now true gen analyses class_name true =
      some (failedClassInsights class_name analyses.length,
        store_cache cache now (class_cache_key analyses class_name)
          (failedClassInsights class_name analyses.length)) ∧
    build_class_insights cache now false gen analyses class_name true =
      some (heuristic_class_summary analyses class_name,
        store_cache cache now (class_cache_key analyses class_name)
          (heuristic_class_summary analyses class_name)) ∧
    dGet (failedClassInsights class_name analyses.length) "student_count" =
      some (.int (analyses.length : Int)) ∧
    dGet (failedClassInsights class_name analyses.length) "commonErrors" = some (.list []) ∧
    dGet (failedClassInsights class_name analyses.length) "detailed" = some (.list []) ∧
    dGet (failedClassInsights class_name analyses.length) "llm" = some (.bool true) := by
  cases analyses with
  | nil => exact absurd rfl hne
  | cons a as =>
      refine ⟨?_, ?_, rfl, rfl, rfl, rfl⟩
      · unfold build_class_insights
        simp only [List.isEmpty_cons, Bool.false_eq_true, if_false]
        rw [if_pos hfail]
        simp [cache_hit]
      · rfl

/-- Witness for C1 (amended) at a concrete failing generation. -/
theorem c1_available_failure_returns_empty_summary_witness :
    build_class_insights [] 0 true ⟨false, .dict []⟩ [recAna1] "turma" true =
      some (failedClassInsights "turma" 1,
        store_cache [] 0 (class_cache_key [recAna1] "turma") (failedClassInsights "turma" 1)) :=
  (c1_available_failure_returns_empty_summary [] 0 ⟨false, .dict []⟩ [recAna1] "turma"
    (by simp) (Or.inl rfl)).1

/-- charListLt is irreflexive. -/
theorem charListLt_irrefl : ∀ cs : List Char, charListLt cs cs = false := by
  intro cs
  induction cs with
  | nil => rfl
  | cons c rest ih =>
      unfold charListLt
      rw [if_neg (lt_irrefl c), if_neg (lt_irrefl c)]
      exact ih

/-- charListLt is transitive. -/
theorem charListLt_trans : ∀ x y z : List Char,
    charListLt x y = true → charListLt y z = true → charListLt x z = true := by
  intro x
  induction x with
  | nil =>
      intro y z hxy hyz
      cases y with
      | nil => cases hxy
      | cons b bs =>
          cases z with
          | nil => cases hyz
          | cons c cs => rfl
  | cons a as ih =>
      intro y z hxy hyz
      cases y with
      | nil => cases hxy
      | cons b bs =>
          cases z with
          | nil => cases hyz
          | cons c cs =>
              unfold charListLt at hxy hyz ⊢
              by_cases hab : a < b
              · rw [if_pos hab] at hxy
                by_cases hbc : b < c
                · rw [if_pos (lt_trans hab hbc)]
                · rw [if_neg hbc] at hyz
                  by_cases hcb : c < b
                  · rw [if_pos hcb] at hyz; cases hyz
                  · have hbceq : b = c := le_antisymm (le_of_not_lt hcb) (le_of_not_lt hbc)
                    subst hbceq
                    rw [if_pos hab]
              · rw [if_neg hab] at hxy
                by_cases hba : b < a
                · rw [if_pos hba] at hxy; cases hxy
                · rw [if_neg hba] at hxy
                  have habeq : a = b := le_antisymm (le_of_not_lt hba) (le_of_not_lt hab)
                  subst habeq
                  by_cases hac : a < c
                  · rw [if_pos hac]
                  · rw [if_neg hac] at hyz ⊢
                    by_cases hca : c < a
                    · rw [if_pos hca] at hyz; cases hyz
                    · rw [if_neg hca] at hyz ⊢
                      exact ih bs cs hxy hyz

/-- Unfolding equation of lookupRec on a cons cell. -/
theorem lookupRec_cons (p : String × AnalysisRecord) (t : List (String × AnalysisRecord))
    (k : String) :
    lookupRec k (p :: t) = if p.1 = k then some p.2 else lookupRec k t := rfl

/-- A successful lookup points to a member of the association list. -/
theorem lookupRec_mem : ∀ (acc : List (String × AnalysisRecord)) (k : String)
    (v : AnalysisRecord), lookupRec k acc = some v → (k, v) ∈ acc := by
  intro acc
  induction acc with
  | nil => intro k v h; cases h
  | cons p rest ih =>
      intro k v h
      unfold lookupRec at h
      by_cases hk : p.1 = k
      · rw [if_pos hk] at h
        cases Option.some.inj h
        subst hk
        exact List.mem_cons_self _ _
      · rw [if_neg hk] at h
        right
        exact ih k v h

/-- A failed lookup means the key is absent. -/
theorem lookupRec_eq_none : ∀ (acc : List (String × AnalysisRecord)) (k : String),
    lookupRec k acc = Option.none → k ∉ acc.map Prod.fst := by
  intro acc
  induction acc with
  | nil => intro k _ h; cases h
  | cons p rest ih =>
      intro k hl hm
      unfold lookupRec at hl
      by_cases hk : p.1 = k
      · rw [if_pos hk] at hl; cases hl
      · rw [if_neg hk] at hl
        rcases List.mem_cons.mp hm with h1 | h2
        · exact hk h1.symm
        · exact ih k hl h2

/-- Lookup distributes over append through the left list. -/
theorem lookupRec_append_left : ∀ (acc rest : List (String × AnalysisRecord)) (k : String)
    (v : AnalysisRecord), lookupRec k acc = some v → lookupRec k (acc ++ rest) = some v := by
  intro acc rest
  induction acc with
  | nil => intro k v h; cases h
  | cons p t ih =>
      intro k v h
      rw [List.cons_append]
      unfold lookupRec at h ⊢
      by_cases hk : p.1 = k
      · rwa [if_pos hk] at h ⊢
      · rw [if_neg hk] at h ⊢
        exact ih k v h

/-- Lookup falls through an absent left list. -/
theorem lookupRec_append_right : ∀ (acc rest : List (String × AnalysisRecord)) (k : String),
    lookupRec k acc = Option.none → lookupRec k (acc ++ rest) = lookupRec k rest := by
  intro acc rest
  induction acc with
  | nil => intro k _; rfl
  | cons p t ih =>
      intro k h
      rw [lookupRec_cons] at h
      rw [List.cons_append, lookupRec_cons]
      by_cases hk : p.1 = k
      · rw [if_pos hk] at h; cases h
      · rw [if_neg hk] at h ⊢
        exact ih k h

/-- updRec keeps the key layout of the association list. -/
theorem updRec_map_fst : ∀ (acc : List (String × AnalysisRecord)) (k : String)
    (v : AnalysisRecord), (updRec k v acc).map Prod.fst = acc.map Prod.fst := by
  intro acc
  induction acc with
  | nil => intro k v; rfl
  | cons p t ih =>
      intro k v
      unfold updRec
      by_cases hk : p.1 = k
      · rw [if_pos hk]
        simp [hk]
      · rw [if_neg hk]
        simp [ih]

/-- Lookup after updRec at the updated key. -/
theorem updRec_lookup_self : ∀ (acc : List (String × AnalysisRecord)) (k : String)
    (v cur : AnalysisRecord), lookupRec k acc = some cur →
    lookupRec k (updRec k v acc) = some v := by
  intro acc
  induction acc with
  | nil => intro k v cur h; cases h
  | cons p t ih =>
      intro k v cur h
      unfold lookupRec at h
      unfold updRec
      by_cases hk : p.1 = k
      · rw [if_pos hk]
        unfold lookupRec
        rw [if_pos hk]
      · rw [if_neg hk]
        unfold lookupRec
        rw [if_neg hk]
        rw [if_neg hk] at h
        exact ih k v cur h

/-- Lookup after updRec at another key. -/
theorem updRec_lookup_other : ∀ (acc : List (String × AnalysisRecord)) (k k2 : String)
    (v : AnalysisRecord), k2 ≠ k →
    lookupRec k2 (updRec k v acc) = lookupRec k2 acc := by
  intro acc
  induction acc with
  | nil => intro k k2 v _; rfl
  | cons p t ih =>
      intro k k2 v hne
      unfold updRec
      by_cases hk : p.1 = k
      · rw [if_pos hk]
        unfold lookupRec
        rw [if_neg (by rw [hk]; exact fun h => hne h.symm),
            if_neg (by rw [hk]; exact fun h => hne h.symm)]
      · rw [if_neg hk]
        unfold lookupRec
        by_cases hk2 : p.1 = k2
        · rw [if_pos hk2, if_pos hk2]
        · rw [if_neg hk2, if_neg hk2]
          exact ih k k2 v hne

/-- Members of updRec are the update or old members. -/
theorem updRec_mem : ∀ (acc : List (String × AnalysisRecord)) (k : String)
    (v : AnalysisRecord) (p : String × AnalysisRecord),
    p ∈ updRec k v acc → p = (k, v) ∨ p ∈ acc := by
  intro acc
  induction acc with
  | nil => intro k v p h; cases h
  | cons q t ih =>
      intro k v p h
      unfold updRec at h
      by_cases hk : q.1 = k
      · rw [if_pos hk] at h
        rcases List.mem_cons.mp h with h1 | h2
        · left; rw [h1, hk]
        · right; right; exact h2
      · rw [if_neg hk] at h
        rcases List.mem_cons.mp h with h1 | h2
        · right
          rw [h1]
          exact List.mem_cons_self _ _
        · rcases ih k v p h2 with h3 | h4
          · left; exact h3
          · right
            exact List.mem_cons_of_mem _ h4

/-- strLt is irreflexive. -/
theorem strLt_irrefl (s : String) : strLt s s = false := charListLt_irrefl s.data

/-- strLt is transitive. -/
theorem strLt_trans (x y z : String) (h1 : strLt x y = true) (h2 : strLt y z = true) :
    strLt x z = true := charListLt_trans x.data y.data z.data h1 h2

/-- Invariant of the _group_analyses_by_student fold: the students dict has
distinct keys, each entry is keyed by its own student name and comes from the
processed records, and every processed record is dominated by the entry
stored under its name (no stored timestamp is strictly smaller). -/
theorem byStudent_fold_inv :
    ∀ (l : List AnalysisRecord) (acc : List (String × AnalysisRecord))
      (processed : List AnalysisRecord),
      (acc.map Prod.fst).Nodup →
      (∀ p ∈ acc, p.2.studentName = p.1 ∧ p.2 ∈ processed) →
      (∀ a ∈ processed, ∃ v, lookupRec a.studentName acc = some v ∧
        strLt v.timestamp a.timestamp = false) →
      ((l.foldl byStudentStep acc).map Prod.fst).Nodup ∧
      (∀ p ∈ l.foldl byStudentStep acc, p.2.studentName = p.1 ∧ p.2 ∈ processed ++ l) ∧
      (∀ a ∈ processed ++ l, ∃ v,
        lookupRec a.studentName (l.foldl byStudentStep acc) = some v ∧
        strLt v.timestamp a.timestamp = false) := by
  intro l
  induction l with
  | nil =>
      intro acc processed h1 h2 h3
      refine ⟨h1, ?_, ?_⟩
      · intro p hp
        have := h2 p hp
        simpa using this
      · intro a ha
        exact h3 a (by simpa using ha)
  | cons b l ih =>
      intro acc processed h1 h2 h3
      have hstep : ((byStudentStep acc b).map Prod.fst).Nodup ∧
          (∀ p ∈ byStudentStep acc b, p.2.studentName = p.1 ∧ p.2 ∈ processed ++ [b]) ∧
          (∀ a ∈ processed ++ [b], ∃ v, lookupRec a.studentName (byStudentStep acc b) = some v ∧
            strLt v.timestamp a.timestamp = false) := by
        cases hlk : lookupRec b.studentName acc with
        | none =>
            have hstep_eq : byStudentStep acc b = acc ++ [(b.studentName, b)] := by
              unfold byStudentStep; rw [hlk]
            rw [hstep_eq]
            refine ⟨?_, ?_, ?_⟩
            · rw [List.map_append]
              rw [List.nodup_append]
              refine ⟨h1, List.nodup_singleton _, ?_⟩
              intro x hx hx2
              simp only [List.map_cons, List.map_nil, List.mem_singleton] at hx2
              rw [hx2] at hx
              exact lookupRec_eq_none acc b.studentName hlk hx
            · intro p hp
              rcases List.mem_append.mp hp with hold | hnew
              · have := h2 p hold
                exact ⟨this.1, List.mem_append_left _ this.2⟩
              · simp only [List.mem_singleton] at hnew
                rw [hnew]
                exact ⟨rfl, List.mem_append_right _ (List.mem_singleton_self b)⟩
            · intro a ha
              rcases List.mem_append.mp ha with hold | hnew
              · obtain ⟨v, hv1, hv2⟩ := h3 a hold
                exact ⟨v, lookupRec_append_left acc _ _ v hv1, hv2⟩
              · simp only [List.mem_singleton] at hnew
                rw [hnew]
                refine ⟨b, ?_, strLt_irrefl _⟩
                rw [lookupRec_append_right acc _ _ hlk]
                simp [lookupRec]
        | some cur =>
            by_cases hlt : strLt cur.timestamp b.timestamp = true
            · have hstep_eq : byStudentStep acc b = updRec b.studentName b acc := by
                unfold byStudentStep
                rw [hlk]
                show (if strLt cur.timestamp b.timestamp = true
                  then updRec b.studentName b acc else acc) = updRec b.studentName b acc
                rw [if_pos hlt]
              rw [hstep_eq]
              refine ⟨?_, ?_, ?_⟩
              · rw [updRec_map_fst]; exact h1
              · intro p hp
                rcases updRec_mem acc _ _ p hp with hnew | hold
                · rw [hnew]
                  exact ⟨rfl, List.mem_append_right _ (List.mem_singleton_self b)⟩
                · have := h2 p hold
                  exact ⟨this.1, List.mem_append_left _ this.2⟩
              · intro a ha
                rcases List.mem_append.mp ha with hold | hnew
                · obtain ⟨v, hv1, hv2⟩ := h3 a hold
                  by_cases hname : a.studentName = b.studentName
                  · have hvc : v = cur := by
                      rw [hname] at hv1
                      exact Option.some.inj (hv1.symm.trans hlk)
                    refine ⟨b, ?_, ?_⟩
                    · rw [hname]
                      exact updRec_lookup_self acc _ b cur hlk
                    · cases hb : strLt b.timestamp a.timestamp with
                      | false => rfl
                      | true =>
                          exfalso
                          have := strLt_trans cur.timestamp b.timestamp a.timestamp hlt hb
                          rw [hvc] at hv2
                          rw [this] at hv2
                          cases hv2
                  · refine ⟨v, ?_, hv2⟩
                    rw [updRec_lookup_other acc _ _ b hname]
                    exact hv1
                · simp only [List.mem_singleton] at hnew
                  rw [hnew]
                  exact ⟨b, updRec_lookup_self acc _ b cur hlk, strLt_irrefl _⟩
            · have hstep_eq : byStudentStep acc b = acc := by
                unfold byStudentStep
                rw [hlk]
                show (if strLt cur.timestamp b.timestamp = true
                  then updRec b.studentName b acc else acc) = acc
                rw [if_neg hlt]
              rw [hstep_eq]
              refine ⟨h1, ?_, ?_⟩
              · intro p hp
                have := h2 p hp
                exact ⟨this.1, List.mem_append_left _ this.2⟩
              · intro a ha
                rcases List.mem_append.mp ha with hold | hnew
                · obtain ⟨v, hv1, hv2⟩ := h3 a hold
                  exact ⟨v, hv1, hv2⟩
                · simp only [List.mem_singleton] at hnew
                  rw [hnew]
                  exact ⟨cur, hlk, Bool.not_eq_true _ ▸ (by simpa using hlt)⟩
      have := ih (byStudentStep acc b) (processed ++ [b]) hstep.1 hstep.2.1 hstep.2.2
      refine ⟨this.1, ?_, ?_⟩
      · intro p hp
        have h := this.2.1 p hp
        refine ⟨h.1, ?_⟩
        have := h.2
        rwa [List.append_assoc, List.singleton_append] at this
      · intro a ha
        apply this.2.2 a
        rwa [List.append_assoc, List.singleton_append]

/-- The deduplicated student names are pairwise distinct. -/
theorem dedupValues_names_nodup (l : List AnalysisRecord) :
    ((dedupValues l).map (fun a => a.studentName)).Nodup := by
  have hinv := byStudent_fold_inv l [] [] (by simp) (by simp) (by simp)
  have hmap : (dedupValues l).map (fun a => a.studentName) =
      (group_analyses_by_student l).map Prod.fst := by
    unfold dedupValues
    rw [List.map_map]
    apply List.map_congr_left
    intro p hp
    exact (hinv.2.1 p hp).1
  rw [hmap]
  exact hinv.1

/-- The record stored under a student name comes from the input, carries that
name, and no input record with the same name has a strictly greater
timestamp. -/
theorem byStudent_lookup_spec (l : List AnalysisRecord) (k : String) (w : AnalysisRecord)
    (h : lookupRec k (group_analyses_by_student l) = some w) :
    w ∈ l ∧ w.studentName = k ∧
    ∀ a ∈ l, a.studentName = k → strLt w.timestamp a.timestamp = false := by
  have hinv := byStudent_fold_inv l [] [] (by simp) (by simp) (by simp)
  have hmem := lookupRec_mem _ k w h
  have hent := hinv.2.1 (k, w) hmem
  refine ⟨by simpa using hent.2, hent.1, ?_⟩
  intro a ha hname
  obtain ⟨v, hv1, hv2⟩ := hinv.2.2 a (by simpa using ha)
  rw [hname] at hv1
  cases Option.some.inj (hv1.symm.trans h)
  exact hv2

/-- Every deduplicated value appears in the input list. -/
theorem dedupValues_subset (l : List AnalysisRecord) :
    ∀ a ∈ dedupValues l, a ∈ l := by
  have hinv := byStudent_fold_inv l [] [] (by simp) (by simp) (by simp)
  intro a ha
  unfold dedupValues at ha
  obtain ⟨p, hp, hpa⟩ := List.mem_map.mp ha
  have := (hinv.2.1 p hp).2
  rw [hpa] at this
  simpa using this

/-- Membership in the three buckets of the fallback grouping loop. -/
theorem bucketsOf_mem (l : List AnalysisRecord) :
    (∀ a, a ∈ (bucketsOf l).high ↔ a ∈ l ∧ a.data.errorPercentage < 30) ∧
    (∀ a, a ∈ (bucketsOf l).medium ↔ a ∈ l ∧ ¬ a.data.errorPercentage < 30 ∧
      a.data.errorPercentage < 60) ∧
    (∀ a, a ∈ (bucketsOf l).low ↔ a ∈ l ∧ ¬ a.data.errorPercentage < 30 ∧
      ¬ a.data.errorPercentage < 60) := by
  have main : ∀ (l : List AnalysisRecord) (b0 : Buckets),
      (∀ a, a ∈ (l.foldl bucketStep b0).high ↔ a ∈ b0.high ∨
        (a ∈ l ∧ a.data.errorPercentage < 30)) ∧
      (∀ a, a ∈ (l.foldl bucketStep b0).medium ↔ a ∈ b0.medium ∨
        (a ∈ l ∧ ¬ a.data.errorPercentage < 30 ∧ a.data.errorPercentage < 60)) ∧
      (∀ a, a ∈ (l.foldl bucketStep b0).low ↔ a ∈ b0.low ∨
        (a ∈ l ∧ ¬ a.data.errorPercentage < 30 ∧ ¬ a.data.errorPercentage < 60)) := by
    intro l
    induction l with
    | nil => intro b0; refine ⟨fun a => by simp, fun a => by simp, fun a => by simp⟩
    | cons x rest ih =>
        intro b0
        have hx := ih (bucketStep b0 x)
        by_cases h30 : x.data.errorPercentage < 30
        · have hb : bucketStep b0 x = { b0 with high := b0.high ++ [x] } := by
            unfold bucketStep
            rw [if_pos h30]
          rw [hb] at hx
          rw [List.foldl_cons, hb]
          refine ⟨fun a => ?_, fun a => ?_, fun a => ?_⟩
          · rw [(hx.1 a)]
            simp only [List.mem_append, List.mem_cons, List.not_mem_nil, or_false]
            constructor
            · rintro (⟨h | h⟩ | ⟨h, h2⟩)
              · exact Or.inl h
              · exact Or.inr ⟨Or.inl h, by rw [h]; exact h30⟩
              · exact Or.inr ⟨Or.inr h, h2⟩
            · rintro (h | ⟨h | h, h2⟩)
              · exact Or.inl (Or.inl h)
              · exact Or.inl (Or.inr h)
              · exact Or.inr ⟨h, h2⟩
          · rw [(hx.2.1 a)]
            simp only [List.mem_cons]
            constructor
            · rintro (h | ⟨h, h2⟩)
              · exact Or.inl h
              · exact Or.inr ⟨Or.inr h, h2⟩
            · rintro (h | ⟨h | h, h2⟩)
              · exact Or.inl h
              · exfalso; rw [h] at h2; exact h2.1 h30
              · exact Or.inr ⟨h, h2⟩
          · rw [(hx.2.2 a)]
            simp only [List.mem_cons]
            constructor
            · rintro (h | ⟨h, h2⟩)
              · exact Or.inl h
              · exact Or.inr ⟨Or.inr h, h2⟩
            · rintro (h | ⟨h | h, h2⟩)
              · exact Or.inl h
              · exfalso; rw [h] at h2; exact h2.1 h30
              · exact Or.inr ⟨h, h2⟩
        · by_cases h60 : x.data.errorPercentage < 60
          · have hb : bucketStep b0 x = { b0 with medium := b0.medium ++ [x] } := by
              unfold bucketStep
              rw [if_neg h30, if_pos h60]
            rw [hb] at hx
            rw [List.foldl_cons, hb]
            refine ⟨fun a => ?_, fun a => ?_, fun a => ?_⟩
            · rw [(hx.1 a)]
              simp only [List.mem_cons]
              constructor
              · rintro (h | ⟨h, h2⟩)
                · exact Or.inl h
                · exact Or.inr ⟨Or.inr h, h2⟩
              · rintro (h | ⟨h | h, h2⟩)
                · exact Or.inl h
                · exfalso; rw [h] at h2; exact h30 h2
                · exact Or.inr ⟨h, h2⟩
            · rw [(hx.2.1 a)]
              simp only [List.mem_append, List.mem_cons, List.not_mem_nil, or_false]
              constructor
              · rintro (⟨h | h⟩ | ⟨h, h2⟩)
                · exact Or.inl h
                · exact Or.inr ⟨Or.inl h, by rw [h]; exact ⟨h30, h60⟩⟩
                · exact Or.inr ⟨Or.inr h, h2⟩
              · rintro (h | ⟨h | h, h2⟩)
                · exact Or.inl (Or.inl h)
                · exact Or.inl (Or.inr h)
                · exact Or.inr ⟨h, h2⟩
            · rw [(hx.2.2 a)]
              simp only [List.mem_cons]
              constructor
              · rintro (h | ⟨h, h2⟩)
                · exact Or.inl h
                · exact Or.inr ⟨Or.inr h, h2⟩
              · rintro (h | ⟨h | h, h2⟩)
                · exact Or.inl h
                · exfalso; rw [h] at h2; exact h2.2 h60
                · exact Or.inr ⟨h, h2⟩
          · have hb : bucketStep b0 x = { b0 with low := b0.low ++ [x] } := by
              unfold bucketStep
              rw [if_neg h30, if_neg h60]
            rw [hb] at hx
            rw [List.foldl_cons, hb]
            refine ⟨fun a => ?_, fun a => ?_, fun a => ?_⟩
            · rw [(hx.1 a)]
              simp only [List.mem_cons]
              constructor
              · rintro (h | ⟨h, h2⟩)
                · exact Or.inl h
                · exact Or.inr ⟨Or.inr h, h2⟩
              · rintro (h | ⟨h | h, h2⟩)
                · exact Or.inl h
                · exfalso; rw [h] at h2; exact h30 h2
                · exact Or.inr ⟨h, h2⟩
            · rw [(hx.2.1 a)]
              simp only [List.mem_cons]
              constructor
              · rintro (h | ⟨h, h2⟩)
                · exact Or.inl h
                · exact Or.inr ⟨Or.inr h, h2⟩
              · rintro (h | ⟨h | h, h2⟩)
                · exact Or.inl h
                · exfalso; rw [h] at h2; exact h60 h2.2
                · exact Or.inr ⟨h, h2⟩
            · rw [(hx.2.2 a)]
              simp only [List.mem_append, List.mem_cons, List.not_mem_nil, or_false]
              constructor
              · rintro (⟨h | h⟩ | ⟨h, h2⟩)
                · exact Or.inl h
                · exact Or.inr ⟨Or.inl h, by rw [h]; exact ⟨h30, h60⟩⟩
                · exact Or.inr ⟨Or.inr h, h2⟩
              · rintro (h | ⟨h | h, h2⟩)
                · exact Or.inl (Or.inl h)
                · exact Or.inl (Or.inr h)
                · exact Or.inr ⟨h, h2⟩
  have h := main l ⟨[], [], []⟩
  exact ⟨fun a => by simpa using h.1 a, fun a => by simpa using h.2.1 a,
    fun a => by simpa using h.2.2 a⟩
/-- The groups emitted by fallback_groups, as conditional singletons over the
three buckets of the deduplicated records. -/
theorem groupsOf_fallback (l : List AnalysisRecord) :
    groupsOf (fallback_groups l) =
      (if (bucketsOf (dedupValues l)).high.isEmpty then [] else
        [groupDict "advanced" "Advanced Group" "bg-green-50 border-green-200" "high"
          (bucketsOf (dedupValues l)).high]) ++
      (if (bucketsOf (dedupValues l)).medium.isEmpty then [] else
        [groupDict "intermediate" "Intermediate Group" "bg-yellow-50 border-yellow-200" "medium"
          (bucketsOf (dedupValues l)).medium]) ++
      (if (bucketsOf (dedupValues l)).low.isEmpty then [] else
        [groupDict "needs-support" "Support Group" "bg-red-50 border-red-200" "low"
          (bucketsOf (dedupValues l)).low]) := rfl

/-- The students of a heuristic group dict are its bucket records. -/
theorem studentsOf_groupDict (slug name color level : String) (items : List AnalysisRecord) :
    studentsOf (groupDict slug name color level items) = items.map memberDict := rfl

/-- Membership in a conditional singleton forces equality. -/
theorem mem_if_singleton {α : Type} (b : Bool) (x a : α)
    (h : a ∈ (if b = true then ([] : List α) else [x])) : a = x := by
  cases b with
  | true => simp at h
  | false => simpa using h

/-- Counterexample to claim C3: two records for the same student with
different timestamps are both represented in the heuristic class aggregation
— the detail rows carry both analysis ids, including the older record. -/
theorem c3_counterexample :
    ((build_class_insights [] 0 false ⟨false, .dict []⟩ [recAna1, recAna2] "t" true).map
      (fun p => dGet p.1 "detailed")) =
      some (some (.list [detailEntry recAna1, detailEntry recAna2])) ∧
    ((build_class_insights [] 0 false ⟨false, .dict []⟩ [recAna1, recAna2] "t" true).map
      (fun p => dGet p.1 "student_count")) = some (some (.int 2)) ∧
    recAna1.studentName = recAna2.studentName ∧
    recAna1.timestamp ≠ recAna2.timestamp ∧
    strLt recAna1.timestamp recAna2.timestamp = true ∧
    dGet (detailEntry recAna1) "analysisId" = some (.str "a1") ∧
    dGet (detailEntry recAna2) "analysisId" = some (.str "a2") := by
  refine ⟨rfl, rfl, rfl, by decide, rfl, rfl, rfl⟩

/-- Claim C3 (amended): the heuristic grouping path deduplicates by student
name, keeping a record no stored timestamp strictly exceeds, and every member
entry of the heuristic groups comes from the deduplicated records; the
heuristic class aggregation, however, does not deduplicate: it counts every
input record and emits one detail row per record (up to 40). -/
theorem c3_dedup_amended (l : List AnalysisRecord) (c : String) :
    (∀ k w, lookupRec k (group_analyses_by_student l) = some w →
      w ∈ l ∧ w.studentName = k ∧
      ∀ a ∈ l, a.studentName = k → strLt w.timestamp a.timestamp = false) ∧
    ((dedupValues l).map (fun a => a.studentName)).Nodup ∧
    (∀ g ∈ groupsOf (fallback_groups l), ∀ s ∈ studentsOf g,
      ∃ w ∈ dedupValues l, s = memberDict w) ∧
    dGet (heuristic_class_summary l c) "student_count" = some (.int (l.length : Int)) ∧
    dGet (heuristic_class_summary l c) "detailed" =
      some (.list ((l.take 40).map detailEntry)) := by
  refine ⟨fun k w h => byStudent_lookup_spec l k w h, dedupValues_names_nodup l, ?_, rfl, rfl⟩
  intro g hg s hs
  rw [groupsOf_fallback] at hg
  have hb := bucketsOf_mem (dedupValues l)
  rcases List.mem_append.mp hg with hg12 | hg3
  · rcases List.mem_append.mp hg12 with hg1 | hg2
    · have hgd := mem_if_singleton _ _ _ hg1
      rw [hgd, studentsOf_groupDict] at hs
      obtain ⟨w, hw, hws⟩ := List.mem_map.mp hs
      exact ⟨w, ((hb.1 w).mp hw).1, hws.symm⟩
    · have hgd := mem_if_singleton _ _ _ hg2
      rw [hgd, studentsOf_groupDict] at hs
      obtain ⟨w, hw, hws⟩ := List.mem_map.mp hs
      exact ⟨w, ((hb.2.1 w).mp hw).1, hws.symm⟩
  · have hgd := mem_if_singleton _ _ _ hg3
    rw [hgd, studentsOf_groupDict] at hs
    obtain ⟨w, hw, hws⟩ := List.mem_map.mp hs
    exact ⟨w, ((hb.2.2 w).mp hw).1, hws.symm⟩

/-- Witness for C3 (amended): the newer record wins the dedup slot for the
shared name. -/
theorem c3_dedup_amended_witness :
    recAna2 ∈ [recAna1, recAna2] ∧ recAna2.studentName = "Ana" ∧
    strLt recAna2.timestamp recAna1.timestamp = false := by
  have h := (c3_dedup_amended [recAna1, recAna2] "t").1 "Ana" recAna2 rfl
  exact ⟨h.1, h.2.1, h.2.2 recAna1 (by simp) rfl⟩

/-- A successful cache lookup points to a member. -/
theorem lookupCache_mem : ∀ (c : List (String × CacheEntry)) (k : String) (e : CacheEntry),
    lookupCache k c = some e → (k, e) ∈ c := by
  intro c
  induction c with
  | nil => intro k e h; cases h
  | cons p rest ih =>
      intro k e h
      unfold lookupCache at h
      by_cases hk : p.1 = k
      · rw [if_pos hk] at h
        cases Option.some.inj h
        subst hk
        exact List.mem_cons_self _ _
      · rw [if_neg hk] at h
        exact List.mem_cons_of_mem _ (ih k e h)

/-- Members after a cache store are the stored entry or old members. -/
theorem mem_setCache : ∀ (c : List (String × CacheEntry)) (k : String) (e : CacheEntry)
    (p : String × CacheEntry), p ∈ setCache k e c → p = (k, e) ∨ p ∈ c := by
  intro c
  induction c with
  | nil =>
      intro k e p h
      simp only [setCache, List.mem_singleton] at h
      exact Or.inl h
  | cons q rest ih =>
      intro k e p h
      unfold setCache at h
      by_cases hk : q.1 = k
      · rw [if_pos hk] at h
        rcases List.mem_cons.mp h with h1 | h2
        · left; rw [h1, hk]
        · right; exact List.mem_cons_of_mem _ h2
      · rw [if_neg hk] at h
        rcases List.mem_cons.mp h with h1 | h2
        · right; rw [h1]; exact List.mem_cons_self _ _
        · rcases ih k e p h2 with h3 | h4
          · left; exact h3
          · right; exact List.mem_cons_of_mem _ h4

/-- A cache hit returns the data of some stored entry. -/
theorem cache_hit_mem (cache : List (String × CacheEntry)) (now : Int) (key : String)
    (force : Bool) (d : PyVal) (h : cache_hit cache now key force = some d) :
    ∃ kk e, (kk, e) ∈ cache ∧ e.data = d := by
  unfold cache_hit at h
  cases force with
  | true => simp at h
  | false =>
      simp only [Bool.false_eq_true, if_false] at h
      cases hl : lookupCache key cache with
      | none =>
          have hg : (get_cache cache now CACHE_TTL_SECONDS key).1 = Option.none := by
            unfold get_cache; rw [hl]
          rw [hg] at h
          simp at h
      | some e =>
          by_cases hexp : CACHE_TTL_SECONDS < now - e.ts
          · have hg : (get_cache cache now CACHE_TTL_SECONDS key).1 = Option.none := by
              unfold get_cache
              rw [hl]
              show (if CACHE_TTL_SECONDS < now - e.ts then ((Option.none : Option PyVal), cache)
                else (some e.data, cache)).1 = Option.none
              rw [if_pos hexp]
            rw [hg] at h
            simp at h
          · have hg : (get_cache cache now CACHE_TTL_SECONDS key).1 = some e.data := by
              unfold get_cache
              rw [hl]
              show (if CACHE_TTL_SECONDS < now - e.ts then ((Option.none : Option PyVal), cache)
                else (some e.data, cache)).1 = some e.data
              rw [if_neg hexp]
            rw [hg] at h
            by_cases ht : pyTruthy e.data = true
            · have hd : e.data = d := by
                have : (if pyTruthy e.data = true then some e.data else Option.none) = some d := h
                rw [if_pos ht] at this
                exact Option.some.inj this
              exact ⟨key, e, lookupCache_mem cache key e hl, hd⟩
            · have : (if pyTruthy e.data = true then some e.data else Option.none) = some d := h
              rw [if_neg ht] at this
              cases this

/-- Lookup after setKey at the written key. -/
theorem lookupKey_setKey_self : ∀ (kvs : List (String × PyVal)) (k : String) (v : PyVal),
    lookupKey k (setKey k v kvs) = some v := by
  intro kvs
  induction kvs with
  | nil => intro k v; simp [setKey, lookupKey]
  | cons p rest ih =>
      intro k v
      unfold setKey
      by_cases hk : p.1 = k
      · rw [if_pos hk]
        unfold lookupKey
        rw [if_pos hk]
      · rw [if_neg hk]
        unfold lookupKey
        rw [if_neg hk]
        exact ih k v

/-- Lookup after setKey at another key. -/
theorem lookupKey_setKey_other : ∀ (kvs : List (String × PyVal)) (k k2 : String) (v : PyVal),
    k2 ≠ k → lookupKey k2 (setKey k v kvs) = lookupKey k2 kvs := by
  intro kvs
  induction kvs with
  | nil =>
      intro k k2 v hne
      simp only [setKey, lookupKey]
      rw [if_neg (fun h => hne h.symm)]
  | cons p rest ih =>
      intro k k2 v hne
      unfold setKey
      by_cases hk : p.1 = k
      · rw [if_pos hk]
        unfold lookupKey
        rw [if_neg (by rw [hk]; exact fun h => hne h.symm),
            if_neg (by rw [hk]; exact fun h => hne h.symm)]
      · rw [if_neg hk]
        unfold lookupKey
        by_cases hk2 : p.1 = k2
        · rw [if_pos hk2, if_pos hk2]
        · rw [if_neg hk2, if_neg hk2]
          exact ih k k2 v hne

/-- Storing a payload that carries an llm boolean preserves the cache-wide
invariant that every stored payload carries one. -/
theorem store_preserves_llm (cache : List (String × CacheEntry)) (now : Int) (key : String)
    (payload : PyVal) (b : Bool)
    (hinv : ∀ q ∈ cache, ∃ b2, dGet q.2.data "llm" = some (.bool b2))
    (hp : dGet payload "llm" = some (.bool b)) :
    ∀ q ∈ store_cache cache now key payload, ∃ b2, dGet q.2.data "llm" = some (.bool b2) := by
  intro q hq
  rcases mem_setCache cache key ⟨payload, now⟩ q hq with hnew | hold
  · rw [hnew]; exact ⟨b, hp⟩
  · exact hinv q hold

/-- A truthy hit that carries an llm boolean still carries it after the
cached flag is set. -/
theorem pySetKey_preserves_llm (d : PyVal) (b : Bool)
    (hd : dGet d "llm" = some (.bool b)) :
    dGet (pySetKey d "cached" (.bool true)) "llm" = some (.bool b) := by
  cases d with
  | dict kvs =>
      show lookupKey "llm" (setKey "cached" (.bool true) kvs) = some (.bool b)
      rw [lookupKey_setKey_other kvs "cached" "llm" (.bool true) (by decide)]
      exact hd
  | none => cases hd
  | bool b2 => cases hd
  | int n => cases hd
  | rat q => cases hd
  | str s => cases hd
  | list xs => cases hd

/-- Counterexample to claim C2: the analysis engine returns structures with
no llm key at all — here the heuristic fallback result for a non-empty
submission. -/
theorem c2_counterexample :
    ((analyze_text false ⟨false, .dict []⟩ ⟨false, .dict []⟩ "hello" "math").map
      (fun p => dGet p.1 "llm")) = some Option.none ∧
    ((analyze_text false ⟨false, .dict []⟩ ⟨false, .dict []⟩ "" "math").map
      (fun p => dGet p.1 "llm")) = some Option.none := ⟨rfl, rfl⟩

/-- Claim C2 (amended): every structure returned by build_groups and
build_class_insights carries an explicit boolean llm field (given a cache
whose stored payloads do, an invariant both functions preserve); analyze
results, by contrast, never carry an llm key on any path. -/
theorem c2_llm_flag_amended :
    (∀ (cache : List (String × CacheEntry)) (now : Int) (avail : Bool) (gen : GenResult)
      (analyses : List AnalysisRecord) (force : Bool) (p : PyVal)
      (cache2 : List (String × CacheEntry)),
      (∀ q ∈ cache, ∃ b, dGet q.2.data "llm" = some (.bool b)) →
      build_groups cache now avail gen analyses force = some (p, cache2) →
      (∃ b, dGet p "llm" = some (.bool b)) ∧
      (∀ q ∈ cache2, ∃ b, dGet q.2.data "llm" = some (.bool b))) ∧
    (∀ (cache : List (String × CacheEntry)) (now : Int) (avail : Bool) (gen : GenResult)
      (analyses : List AnalysisRecord) (class_name : String) (force : Bool) (p : PyVal)
      (cache2 : List (String × CacheEntry)),
      (∀ q ∈ cache, ∃ b, dGet q.2.data "llm" = some (.bool b)) →
      build_class_insights cache now avail gen analyses class_name force = some (p, cache2) →
      (∃ b, dGet p "llm" = some (.bool b)) ∧
      (∀ q ∈ cache2, ∃ b, dGet q.2.data "llm" = some (.bool b))) ∧
    (∀ (avail : Bool) (primary legacy : GenResult) (text subject : String) (r : PyVal) (n : Nat),
      analyze_text avail primary legacy text subject = some (r, n) →
      dGet r "llm" = Option.none) := by
  refine ⟨?_, ?_, ?_⟩
  · intro cache now avail gen analyses force p cache2 hinv h
    unfold build_groups at h
    simp only [] at h
    by_cases hemp : analyses.isEmpty = true
    · rw [if_pos hemp] at h
      cases Option.some.inj h
      exact ⟨⟨avail, rfl⟩, hinv⟩
    · rw [if_neg hemp] at h
      cases hh : cache_hit cache now (cache_key (dedupValues analyses)) force with
      | some d =>
          have h2 : some (pySetKey d "cached" (.bool true), cache) = some (p, cache2) := by
            rw [hh] at h; exact h
          cases Option.some.inj h2
          obtain ⟨kk, e, hmem, hd⟩ := cache_hit_mem cache now _ force d hh
          obtain ⟨b, hb⟩ := hinv (kk, e) hmem
          rw [hd] at hb
          exact ⟨⟨b, pySetKey_preserves_llm d b hb⟩, hinv⟩
      | none =>
          have h2 : (if avail = false then
              some (fallback_groups (dedupValues analyses),
                store_cache cache now (cache_key (dedupValues analyses))
                  (fallback_groups (dedupValues analyses)))
            else if gen.success = false then
              some (fallback_groups (dedupValues analyses),
                store_cache cache now (cache_key (dedupValues analyses))
                  (fallback_groups (dedupValues analyses)))
            else
              match pyContains gen.data "groups" with
              | Option.none => Option.none
              | some hasGroups =>
                if hasGroups = false then
                  some (fallback_groups (dedupValues analyses),
                    store_cache cache now (cache_key (dedupValues analyses))
                      (fallback_groups (dedupValues analyses)))
                else
                  match dGet gen.data "groups" with
                  | Option.none => Option.none
                  | some groups =>
                    match pySlice groups 10 with
                    | Option.none => Option.none
                    | some gs10 =>
                      match pyIter gs10 with
                      | Option.none => Option.none
                      | some glist =>
                        match glist.mapM normGroup with
                        | Option.none => Option.none
                        | some norm_groups =>
                          some (.dict [("groups", .list norm_groups), ("llm", .bool true),
                              ("cached", .bool false)],
                            store_cache cache now (cache_key (dedupValues analyses))
                              (.dict [("groups", .list norm_groups), ("llm", .bool true),
                                ("cached", .bool false)]))) = some (p, cache2) := by
            rw [hh] at h; exact h
          have hfb : ∀ hq : some (fallback_groups (dedupValues analyses),
              store_cache cache now (cache_key (dedupValues analyses))
                (fallback_groups (dedupValues analyses))) = some (p, cache2),
              (∃ b, dGet p "llm" = some (.bool b)) ∧
              (∀ q ∈ cache2, ∃ b, dGet q.2.data "llm" = some (.bool b)) := by
            intro hq
            cases Option.some.inj hq
            exact ⟨⟨false, rfl⟩,
              store_preserves_llm cache now _ _ false hinv rfl⟩
          by_cases hav : avail = false
          · rw [if_pos hav] at h2
            exact hfb h2
          · rw [if_neg hav] at h2
            by_cases hsuc : gen.success = false
            · rw [if_pos hsuc] at h2
              exact hfb h2
            · rw [if_neg hsuc] at h2
              cases hpc : pyContains gen.data "groups" with
              | none => simp only [hpc] at h2; cases h2
              | some hasGroups =>
                  simp only [hpc] at h2
                  by_cases hhg : hasGroups = false
                  · rw [if_pos hhg] at h2
                    exact hfb h2
                  · rw [if_neg hhg] at h2
                    cases hgr : dGet gen.data "groups" with
                    | none => simp only [hgr] at h2; cases h2
                    | some groups =>
                        simp only [hgr] at h2
                        cases hsl : pySlice groups 10 with
                        | none => simp only [hsl] at h2; cases h2
                        | some gs10 =>
                            simp only [hsl] at h2
                            cases hit : pyIter gs10 with
                            | none => simp only [hit] at h2; cases h2
                            | some glist =>
                                simp only [hit] at h2
                                cases hmm : glist.mapM normGroup with
                                | none => simp only [hmm] at h2; cases h2
                                | some norm_groups =>
                                    simp only [hmm] at h2
                                    cases Option.some.inj h2
                                    exact ⟨⟨true, rfl⟩,
                                      store_preserves_llm cache now _ _ true hinv rfl⟩
  · intro cache now avail gen analyses class_name force p cache2 hinv h
    unfold build_class_insights at h
    simp only [] at h
    by_cases hemp : analyses.isEmpty = true
    · rw [if_pos hemp] at h
      cases Option.some.inj h
      exact ⟨⟨avail, rfl⟩, hinv⟩
    · rw [if_neg hemp] at h
      cases hh : cache_hit cache now (class_cache_key analyses class_name) force with
      | some d =>
          have h2 : some (pySetKey d "cached" (.bool true), cache) = some (p, cache2) := by
            rw [hh] at h; exact h
          cases Option.some.inj h2
          obtain ⟨kk, e, hmem, hd⟩ := cache_hit_mem cache now _ force d hh
          obtain ⟨b, hb⟩ := hinv (kk, e) hmem
          rw [hd] at hb
          exact ⟨⟨b, pySetKey_preserves_llm d b hb⟩, hinv⟩
      | none =>
          have h2 : (if avail = false then
              some (heuristic_class_summary analyses class_name,
                store_cache cache now (class_cache_key analyses class_name)
                  (heuristic_class_summary analyses class_name))
            else if gen.success = false ∨ isDictVal gen.data = false then
              some (failedClassInsights class_name analyses.length,
                store_cache cache now (class_cache_key analyses class_name)
                  (failedClassInsights class_name analyses.length))
            else
              match gen.data with
              | .dict kvs =>
                  let kvs1 := setKey "class_name" (getD kvs "class_name" (.str class_name)) kvs
                  let scv := getD kvs1 "student_count" .none
                  let scArg := if pyTruthy scv then scv else .int (analyses.length : Int)
                  match pyToInt scArg with
                  | Option.none => Option.none
                  | some sc =>
                      let kvs2 := setKey "student_count" (.int sc) kvs1
                      let aev := getD kvs2 "average_error" .none
                      let aeArg := if pyTruthy aev then aev else .rat 0
                      let ae : Rat := (pyToFloat aeArg).getD 0
                      let kvs3 := setKey "average_error" (.rat ae) kvs2
                      let kvs4 := setKey "llm" (.bool true) kvs3
                      let kvs5 := setKey "cached" (.bool false) kvs4
                      some (.dict kvs5,
                        store_cache cache now (class_cache_key analyses class_name) (.dict kvs5))
              | _ => Option.none) = some (p, cache2) := by
            rw [hh] at h; exact h
          by_cases hav : avail = false
          · rw [if_pos hav] at h2
            cases Option.some.inj h2
            exact ⟨⟨false, rfl⟩, store_preserves_llm cache now _ _ false hinv rfl⟩
          · rw [if_neg hav] at h2
            by_cases hfl : gen.success = false ∨ isDictVal gen.data = false
            · rw [if_pos hfl] at h2
              cases Option.some.inj h2
              exact ⟨⟨true, rfl⟩, store_preserves_llm cache now _ _ true hinv rfl⟩
            · rw [if_neg hfl] at h2
              cases hgd : gen.data with
              | dict kvs =>
                  simp only [hgd] at h2
                  cases hsc : pyToInt (if pyTruthy (getD
                      (setKey "class_name" (getD kvs "class_name" (.str class_name)) kvs)
                      "student_count" .none) then
                      getD (setKey "class_name" (getD kvs "class_name" (.str class_name)) kvs)
                        "student_count" .none
                    else .int (analyses.length : Int)) with
                  | none =>
                      simp only [hsc] at h2
                      cases h2
                  | some sc =>
                      simp only [hsc] at h2
                      cases Option.some.inj h2
                      have hllm : dGet (PyVal.dict (setKey "cached" (.bool false)
                          (setKey "llm" (.bool true)
                            (setKey "average_error" (.rat ((pyToFloat (if pyTruthy (getD
                              (setKey "student_count" (.int sc)
                                (setKey "class_name" (getD kvs "class_name" (.str class_name))
                                  kvs)) "average_error" .none) then
                              getD (setKey "student_count" (.int sc)
                                (setKey "class_name" (getD kvs "class_name" (.str class_name))
                                  kvs)) "average_error" .none
                            else .rat 0)).getD 0))
                              (setKey "student_count" (.int sc)
                                (setKey "class_name" (getD kvs "class_name" (.str class_name))
                                  kvs)))))) "llm" = some (.bool true) := by
                        show lookupKey "llm" (setKey "cached" (.bool false)
                          (setKey "llm" (.bool true) _)) = some (.bool true)
                        rw [lookupKey_setKey_other _ "cached" "llm" _ (by decide),
                          lookupKey_setKey_self]
                      exact ⟨⟨true, hllm⟩, store_preserves_llm cache now _ _ true hinv hllm⟩
              | none => simp only [hgd] at h2; cases h2
              | bool b => simp only [hgd] at h2; cases h2
              | int n => simp only [hgd] at h2; cases h2
              | rat q => simp only [hgd] at h2; cases h2
              | str st => simp only [hgd] at h2; cases h2
              | list xs => simp only [hgd] at h2; cases h2
  · intro avail primary legacy text subject r n h
    unfold analyze_text at h
    by_cases he : pyStrip text = ""
    · rw [if_pos he] at h
      cases Option.some.inj h
      rfl
    · rw [if_neg he] at h
      by_cases hav : avail = false
      · rw [if_pos hav] at h
        cases Option.some.inj h
        rfl
      · rw [if_neg hav] at h
        by_cases hsuc : primary.success = false
        · rw [if_pos hsuc] at h
          cases Option.some.inj h
          rfl
        · rw [if_neg hsuc] at h
          cases hgd : primary.data with
          | dict kvs =>
              simp only [hgd] at h
              cases ha : analyzeSuccess kvs legacy text with
              | none => rw [ha] at h; cases h
              | some r0 =>
                  rw [ha] at h
                  simp only [Option.map_some'] at h
                  cases Option.some.inj h
                  exact (analyzeSuccess_fields kvs legacy text _ ha).2.2
          | none => simp only [hgd] at h; cases h
          | bool b => simp only [hgd] at h; cases h
          | int n2 => simp only [hgd] at h; cases h
          | rat q => simp only [hgd] at h; cases h
          | str st => simp only [hgd] at h; cases h
          | list xs => simp only [hgd] at h; cases h

/-- Witness for C2 (amended) on an empty cache and a heuristic grouping. -/
theorem c2_llm_flag_amended_witness :
    (∃ b, dGet (fallback_groups [recAna1]) "llm" = some (.bool b)) := by
  have h := c2_llm_flag_amended.1 [] 0 false ⟨false, .dict []⟩ [recAna1] true
    (fallback_groups [recAna1])
    (store_cache [] 0 (cache_key (dedupValues [recAna1])) (fallback_groups [recAna1]))
    (by intro q hq; cases hq) rfl
  exact h.1

/-- The first-occurrence deduplication produces distinct strings avoiding the
seen set. -/
theorem dedupStrAux_spec : ∀ (l seen : List String),
    (dedupStrAux seen l).Nodup ∧ ∀ x ∈ dedupStrAux seen l, x ∉ seen := by
  intro l
  induction l with
  | nil => intro seen; exact ⟨List.nodup_nil, by intro x hx; cases hx⟩
  | cons x rest ih =>
      intro seen
      unfold dedupStrAux
      by_cases hx : x ∈ seen
      · rw [if_pos hx]
        exact ih seen
      · rw [if_neg hx]
        have hr := ih (x :: seen)
        refine ⟨?_, ?_⟩
        · rw [List.nodup_cons]
          refine ⟨?_, hr.1⟩
          intro hmem
          exact hr.2 x hmem (List.mem_cons_self _ _)
        · intro y hy
          rcases List.mem_cons.mp hy with h1 | h2
          · rw [h1]; exact hx
          · intro hys
            exact hr.2 y h2 (List.mem_cons_of_mem _ hys)

/-- A member of a conditional singleton also certifies the guard. -/
theorem mem_if_singleton_eq {α : Type} (b : Bool) (x a : α)
    (h : a ∈ (if b = true then ([] : List α) else [x])) : b = false ∧ a = x := by
  cases b with
  | true => simp at h
  | false => exact ⟨rfl, by simpa using h⟩

/-- A list with a member is not isEmpty. -/
theorem mem_isEmpty_false {α : Type} (l : List α) (a : α) (h : a ∈ l) : l.isEmpty = false := by
  cases l with
  | nil => cases h
  | cons y ys => rfl

/-- The level field of a heuristic group dict. -/
theorem groupDict_level (slug name color lvl : String) (items : List AnalysisRecord) :
    dGet (groupDict slug name color lvl items) "level" = some (.str lvl) := rfl

/-- tierOf lands on high exactly below 30. -/
theorem tierOf_high_iff (p : Int) : tierOf p = "high" ↔ p < 30 := by
  unfold tierOf
  by_cases h30 : p < 30
  · simp [h30]
  · by_cases h60 : p < 60 <;> simp [h30, h60]

/-- tierOf lands on medium exactly in [30, 60). -/
theorem tierOf_medium_iff (p : Int) : tierOf p = "medium" ↔ ¬ p < 30 ∧ p < 60 := by
  unfold tierOf
  by_cases h30 : p < 30
  · simp [h30]
  · by_cases h60 : p < 60 <;> simp [h30, h60]

/-- tierOf lands on low exactly at 60 and above. -/
theorem tierOf_low_iff (p : Int) : tierOf p = "low" ↔ ¬ p < 30 ∧ ¬ p < 60 := by
  unfold tierOf
  by_cases h30 : p < 30
  · simp [h30]
  · by_cases h60 : p < 60 <;> simp [h30, h60]

/-- Equal member dicts come from records with the same student name. -/
theorem memberDict_name_inj (b a : AnalysisRecord) (h : memberDict b = memberDict a) :
    b.studentName = a.studentName := by
  unfold memberDict at h
  simp only [PyVal.dict.injEq, List.cons.injEq, Prod.mk.injEq, PyVal.str.injEq] at h
  exact h.2.1.2

/-- Member entries of a heuristic group dict built over a bucket characterise
the records of that tier. -/
theorem fallback_group_members (l : List AnalysisRecord) (slug name color lvl : String)
    (bucket : List AnalysisRecord)
    (hbucket : ∀ a, a ∈ bucket ↔ a ∈ dedupValues l ∧ tierOf a.data.errorPercentage = lvl) :
    ∀ a ∈ dedupValues l,
      (memberDict a ∈ studentsOf (groupDict slug name color lvl bucket) ↔
        tierOf a.data.errorPercentage = lvl) := by
  intro a ha
  rw [studentsOf_groupDict]
  constructor
  · intro hm
    obtain ⟨b, hb, hba⟩ := List.mem_map.mp hm
    have hname : b.studentName = a.studentName := memberDict_name_inj b a hba
    have hbu := (hbucket b).mp hb
    have hab : b = a :=
      List.inj_on_of_nodup_map (dedupValues_names_nodup l) hbu.1 ha hname
    rw [← hab]
    exact hbu.2
  · intro ht
    exact List.mem_map.mpr ⟨a, (hbucket a).mpr ⟨ha, ht⟩, rfl⟩

/-- Some-wrapped string equality. -/
theorem some_str_eq_iff (s t : String) :
    ((some (PyVal.str s) : Option PyVal) = some (.str t)) ↔ t = s := by
  simp [eq_comm]

/-- Claim C6: every deduplicated record lands in exactly one tier of the
fallback grouping, determined by the thresholds 30 and 60 (29 is high/
advanced, 30 and 59 medium/intermediate, 60 low/support); only non-empty
tiers are emitted, and each emitted commonErrors list holds at most 5
distinct mainError values. -/
theorem c6_fallback_bucket_tiers (analyses : List AnalysisRecord) :
    (∀ g ∈ groupsOf (fallback_groups analyses),
      studentsOf g ≠ [] ∧
      ((dGet g "level" = some (.str "high") ∧ dGet g "id" = some (.str "advanced")) ∨
       (dGet g "level" = some (.str "medium") ∧ dGet g "id" = some (.str "intermediate")) ∨
       (dGet g "level" = some (.str "low") ∧ dGet g "id" = some (.str "needs-support"))) ∧
      ∃ errs : List String, dGet g "commonErrors" = some (.list (errs.map .str)) ∧
        errs.Nodup ∧ errs.length ≤ 5) ∧
    (∀ a ∈ dedupValues analyses, ∀ g ∈ groupsOf (fallback_groups analyses),
      (memberDict a ∈ studentsOf g ↔
        dGet g "level" = some (.str (tierOf a.data.errorPercentage)))) ∧
    (∀ a ∈ dedupValues analyses, ∃! g, g ∈ groupsOf (fallback_groups analyses) ∧
      memberDict a ∈ studentsOf g) ∧
    (tierOf 29 = "high" ∧ tierOf 30 = "medium" ∧ tierOf 59 = "medium" ∧ tierOf 60 = "low") := by
  have hb := bucketsOf_mem (dedupValues analyses)
  have hbh : ∀ a, a ∈ (bucketsOf (dedupValues analyses)).high ↔
      a ∈ dedupValues analyses ∧ tierOf a.data.errorPercentage = "high" := by
    intro a
    rw [hb.1 a, tierOf_high_iff]
  have hbm : ∀ a, a ∈ (bucketsOf (dedupValues analyses)).medium ↔
      a ∈ dedupValues analyses ∧ tierOf a.data.errorPercentage = "medium" := by
    intro a
    rw [hb.2.1 a, tierOf_medium_iff]
  have hbl : ∀ a, a ∈ (bucketsOf (dedupValues analyses)).low ↔
      a ∈ dedupValues analyses ∧ tierOf a.data.errorPercentage = "low" := by
    intro a
    rw [hb.2.2 a, tierOf_low_iff]
  have hcommon : ∀ (slug name color lvl : String) (items : List AnalysisRecord),
      ∃ errs : List String,
        dGet (groupDict slug name color lvl items) "commonErrors" =
          some (.list (errs.map .str)) ∧ errs.Nodup ∧ errs.length ≤ 5 := by
    intro slug name color lvl items
    refine ⟨(distinctMainErrors items).take 5, rfl, ?_, ?_⟩
    · exact List.Nodup.sublist (List.take_sublist 5 _) (dedupStrAux_spec _ []).1
    · exact List.length_take_le 5 _
  have hstudne : ∀ (slug name color lvl : String) (items : List AnalysisRecord),
      items.isEmpty = false → studentsOf (groupDict slug name color lvl items) ≠ [] := by
    intro slug name color lvl items hne
    rw [studentsOf_groupDict]
    cases items with
    | nil => cases hne
    | cons x xs => simp
  have hiff : ∀ a ∈ dedupValues analyses, ∀ g ∈ groupsOf (fallback_groups analyses),
      (memberDict a ∈ studentsOf g ↔
        dGet g "level" = some (.str (tierOf a.data.errorPercentage))) := by
    intro a ha g hg
    rw [groupsOf_fallback] at hg
    rcases List.mem_append.mp hg with h12 | h3
    · rcases List.mem_append.mp h12 with h1 | h2
      · rw [(mem_if_singleton_eq _ _ _ h1).2, groupDict_level, some_str_eq_iff]
        exact fallback_group_members analyses _ _ _ "high" _ hbh a ha
      · rw [(mem_if_singleton_eq _ _ _ h2).2, groupDict_level, some_str_eq_iff]
        exact fallback_group_members analyses _ _ _ "medium" _ hbm a ha
    · rw [(mem_if_singleton_eq _ _ _ h3).2, groupDict_level, some_str_eq_iff]
      exact fallback_group_members analyses _ _ _ "low" _ hbl a ha
  refine ⟨?_, hiff, ?_, by decide, by decide, by decide, by decide⟩
  · intro g hg
    rw [groupsOf_fallback] at hg
    rcases List.mem_append.mp hg with h12 | h3
    · rcases List.mem_append.mp h12 with h1 | h2
      · obtain ⟨hne, hgeq⟩ := mem_if_singleton_eq _ _ _ h1
        rw [hgeq]
        exact ⟨hstudne _ _ _ _ _ hne, Or.inl ⟨rfl, rfl⟩, hcommon _ _ _ _ _⟩
      · obtain ⟨hne, hgeq⟩ := mem_if_singleton_eq _ _ _ h2
        rw [hgeq]
        exact ⟨hstudne _ _ _ _ _ hne, Or.inr (Or.inl ⟨rfl, rfl⟩), hcommon _ _ _ _ _⟩
    · obtain ⟨hne, hgeq⟩ := mem_if_singleton_eq _ _ _ h3
      rw [hgeq]
      exact ⟨hstudne _ _ _ _ _ hne, Or.inr (Or.inr ⟨rfl, rfl⟩), hcommon _ _ _ _ _⟩
  · intro a ha
    have huniq : ∀ (lvl slug name color : String) (bucket : List AnalysisRecord),
        (∀ x, x ∈ bucket ↔ x ∈ dedupValues analyses ∧ tierOf x.data.errorPercentage = lvl) →
        tierOf a.data.errorPercentage = lvl →
        ∀ g', g' ∈ groupsOf (fallback_groups analyses) →
          memberDict a ∈ studentsOf g' →
          dGet g' "level" = some (.str lvl) := by
      intro lvl slug name color bucket hbk ht g' hg' hm'
      have := (hiff a ha g' hg').mp hm'
      rw [ht] at this
      exact this
    by_cases h30 : a.data.errorPercentage < 30
    · have ht : tierOf a.data.errorPercentage = "high" := (tierOf_high_iff _).mpr h30
      have hainb : a ∈ (bucketsOf (dedupValues analyses)).high := (hbh a).mpr ⟨ha, ht⟩
      have hne : (bucketsOf (dedupValues analyses)).high.isEmpty = false :=
        mem_isEmpty_false _ a hainb
      refine ⟨groupDict "advanced" "Advanced Group" "bg-green-50 border-green-200" "high"
        (bucketsOf (dedupValues analyses)).high, ⟨?_, ?_⟩, ?_⟩
      · rw [groupsOf_fallback]
        refine List.mem_append.mpr (Or.inl (List.mem_append.mpr (Or.inl ?_)))
        rw [hne]
        simp
      · exact (fallback_group_members analyses _ _ _ "high" _ hbh a ha).mpr ht
      · rintro g' ⟨hg', hm'⟩
        have hlev := huniq "high" "" "" "" _ hbh ht g' hg' hm'
        rw [groupsOf_fallback] at hg'
        rcases List.mem_append.mp hg' with h12 | h3
        · rcases List.mem_append.mp h12 with h1 | h2
          · exact (mem_if_singleton_eq _ _ _ h1).2
          · exfalso
            rw [(mem_if_singleton_eq _ _ _ h2).2, groupDict_level] at hlev
            simp at hlev
        · exfalso
          rw [(mem_if_singleton_eq _ _ _ h3).2, groupDict_level] at hlev
          simp at hlev
    · by_cases h60 : a.data.errorPercentage < 60
      · have ht : tierOf a.data.errorPercentage = "medium" :=
          (tierOf_medium_iff _).mpr ⟨h30, h60⟩
        have hainb : a ∈ (bucketsOf (dedupValues analyses)).medium := (hbm a).mpr ⟨ha, ht⟩
        have hne : (bucketsOf (dedupValues analyses)).medium.isEmpty = false :=
          mem_isEmpty_false _ a hainb
        refine ⟨groupDict "intermediate" "Intermediate Group"
          "bg-yellow-50 border-yellow-200" "medium"
          (bucketsOf (dedupValues analyses)).medium, ⟨?_, ?_⟩, ?_⟩
        · rw [groupsOf_fallback]
          refine List.mem_append.mpr (Or.inl (List.mem_append.mpr (Or.inr ?_)))
          rw [hne]
          simp
        · exact (fallback_group_members analyses _ _ _ "medium" _ hbm a ha).mpr ht
        · rintro g' ⟨hg', hm'⟩
          have hlev := huniq "medium" "" "" "" _ hbm ht g' hg' hm'
          rw [groupsOf_fallback] at hg'
          rcases List.mem_append.mp hg' with h12 | h3
          · rcases List.mem_append.mp h12 with h1 | h2
            · exfalso
              rw [(mem_if_singleton_eq _ _ _ h1).2, groupDict_level] at hlev
              simp at hlev
            · exact (mem_if_singleton_eq _ _ _ h2).2
          · exfalso
            rw [(mem_if_singleton_eq _ _ _ h3).2, groupDict_level] at hlev
            simp at hlev
      · have ht : tierOf a.data.errorPercentage = "low" :=
          (tierOf_low_iff _).mpr ⟨h30, h60⟩
        have hainb : a ∈ (bucketsOf (dedupValues analyses)).low := (hbl a).mpr ⟨ha, ht⟩
        have hne : (bucketsOf (dedupValues analyses)).low.isEmpty = false :=
          mem_isEmpty_false _ a hainb
        refine ⟨groupDict "needs-support" "Support Group" "bg-red-50 border-red-200" "low"
          (bucketsOf (dedupValues analyses)).low, ⟨?_, ?_⟩, ?_⟩
        · rw [groupsOf_fallback]
          refine List.mem_append.mpr (Or.inr ?_)
          rw [hne]
          simp
        · exact (fallback_group_members analyses _ _ _ "low" _ hbl a ha).mpr ht
        · rintro g' ⟨hg', hm'⟩
          have hlev := huniq "low" "" "" "" _ hbl ht g' hg' hm'
          rw [groupsOf_fallback] at hg'
          rcases List.mem_append.mp hg' with h12 | h3
          · rcases List.mem_append.mp h12 with h1 | h2
            · exfalso
              rw [(mem_if_singleton_eq _ _ _ h1).2, groupDict_level] at hlev
              simp at hlev
            · exfalso
              rw [(mem_if_singleton_eq _ _ _ h2).2, groupDict_level] at hlev
              simp at hlev
          · exact (mem_if_singleton_eq _ _ _ h3).2

/-- Witness for C6 on three concrete records at the boundary percentages. -/
theorem c6_fallback_bucket_tiers_witness :
    memberDict ⟨"b1", "Ana", "t1", "m", ⟨"e1", 29, []⟩⟩ ∈
      studentsOf (groupDict "advanced" "Advanced Group" "bg-green-50 border-green-200" "high"
        (bucketsOf (dedupValues [⟨"b1", "Ana", "t1", "m", ⟨"e1", 29, []⟩⟩,
          ⟨"b2", "Bea", "t1", "m", ⟨"e2", 30, []⟩⟩])).high) := by
  have h := (c6_fallback_bucket_tiers [⟨"b1", "Ana", "t1", "m", ⟨"e1", 29, []⟩⟩,
    ⟨"b2", "Bea", "t1", "m", ⟨"e2", 30, []⟩⟩]).2.1
    ⟨"b1", "Ana", "t1", "m", ⟨"e1", 29, []⟩⟩ (by decide)
    (groupDict "advanced" "Advanced Group" "bg-green-50 border-green-200" "high"
      (bucketsOf (dedupValues [⟨"b1", "Ana", "t1", "m", ⟨"e1", 29, []⟩⟩,
        ⟨"b2", "Bea", "t1", "m", ⟨"e2", 30, []⟩⟩])).high)
    (by rw [groupsOf_fallback]; simp [bucketsOf, bucketStep, dedupValues,
      group_analyses_by_student, byStudentStep, lookupRec])
  exact h.mpr (by rfl)
